import Mathlib

/-!
# Conway's Game of Life (`life.go`): a shallow embedding

The world is the Go value `[][]bool`, indexed `cells[x][y]`: a slice of columns.
Go `int` values are modelled as `Int`.  Every index expression of the program that
can leave the `int` range (`x+2`, `x-1`, ...) is immediately used as a slice index,
and a slice is shorter than `2^63`, so a wrapped value and the unwrapped one are
both out of range: the run-time panic is the same.  Out-of-range indexing is a
panic, modelled by `none` (pure reads) or by `Outcome.panic` (stateful code).
-/

namespace Life

/-- A world of cells, `[][]bool`; `cells[x]` is column `x`. -/
abbrev Grid := List (List Bool)

/-- Slice read `s[i]` with an `int` index; `none` is the out-of-range panic. -/
def index {α : Type} (s : List α) (i : Int) : Option α :=
  if i < 0 then none else s[i.toNat]?

/-- Slice write `s[i] = v` with an `int` index; `none` is the out-of-range panic. -/
def assign {α : Type} (s : List α) (i : Int) (v : α) : Option (List α) :=
  if i < 0 then none
  else if i.toNat < s.length then some (s.set i.toNat v) else none

/-- Wrap around world edges: the index adjustment `check` makes before each of
its two slice reads (`len` is `len(cells)` or `len(line)`). -/
def force (len x : Int) : Int :=
  if x ≥ 0 then
    if len > x then x else len - x
  else len + x

/-- Source `check(x, y)`: 1 if the (wrapped) cell is alive, 0 otherwise. -/
def check (cells : Grid) (x y : Int) : Option Int :=
  match index cells (force cells.length x) with
  | none => none
  | some line =>
    match index line (force line.length y) with
    | none => none
    | some c => some (if c then 1 else 0)

/-- Source `Count(x, y)`: the sum of the eight `check` calls, in source order. -/
def Count (cells : Grid) (x y : Int) : Option Int := do
  let a ← check cells (x - 1) (y - 1)
  let b ← check cells x (y - 1)
  let c ← check cells (x + 1) (y - 1)
  let d ← check cells (x - 1) y
  let e ← check cells (x + 1) y
  let f ← check cells (x - 1) (y + 1)
  let g ← check cells x (y + 1)
  let h ← check cells (x + 1) (y + 1)
  pure (a + b + c + d + e + f + g + h)

/-- A grid is rectangular with `W` columns of `H` cells each. -/
def Rect (cells : Grid) (W H : Nat) : Prop :=
  cells.length = W ∧ ∀ col ∈ cells, col.length = H

/-- State of cell `(x, y)`; a position outside the grid holds no live cell. -/
def live (cells : Grid) (x y : Int) : Bool :=
  match index cells x with
  | none => false
  | some line => (index line y).getD false

/-- The spec's neighbour count: the number of live cells among the eight
positions `((x+dx+W) mod W, (y+dy+H) mod H)`, `(dx,dy) ≠ (0,0)`. -/
def moduloCount (cells : Grid) (W H : Int) (x y : Int) : Int :=
  (([(-1, -1), (0, -1), (1, -1), (-1, 0), (1, 0), (-1, 1), (0, 1), (1, 1)] :
      List (Int × Int)).map
    (fun d => if live cells ((x + d.1 + W) % W) ((y + d.2 + H) % H) then (1 : Int) else 0)).sum

/-- The 5x5 grid whose only live cell is `(0,0)`. -/
def corner5 : Grid :=
  [[true, false, false, false, false],
   [false, false, false, false, false],
   [false, false, false, false, false],
   [false, false, false, false, false],
   [false, false, false, false, false]]

/-- Result of running stateful code: normal completion, a run-time panic, or a
send blocked on a full channel.  Each carries the state reached at that point. -/
inductive Outcome (σ : Type) where
  | done (s : σ)
  | panic (s : σ)
  | blocked (s : σ)
  deriving DecidableEq, Repr

/-- Sequencing of statements: the rest runs only after normal completion. -/
def Outcome.andThen {σ : Type} (o : Outcome σ) (f : σ → Outcome σ) : Outcome σ :=
  match o with
  | .done s => f s
  | .panic s => .panic s
  | .blocked s => .blocked s

/-- The state an outcome carries. -/
def Outcome.state {σ : Type} : Outcome σ → σ
  | .done s => s
  | .panic s => s
  | .blocked s => s

/-- Element write `cells[x][y] = v`; `none` when either index is out of range. -/
def setCell (cells : Grid) (x y : Int) (v : Bool) : Option Grid :=
  match index cells x with
  | none => none
  | some line =>
    match assign line y v with
    | none => none
    | some line' => assign cells x line'

/-- The statement `cells[x][y] = true` of the `Add*` functions: on an
out-of-range index it panics with the grid as it is at that point. -/
def stamp (cells : Grid) (x y : Int) : Outcome Grid :=
  match setCell cells x y true with
  | some cells' => .done cells'
  | none => .panic cells

/-- Source `ToggleCell(x, y)`. -/
def ToggleCell (cells : Grid) (x y : Int) : Outcome Grid :=
  match index cells x with
  | none => .panic cells
  | some line =>
    match index line y with
    | none => .panic cells
    | some c =>
      match setCell cells x y (!c) with
      | some cells' => .done cells'
      | none => .panic cells

/-- Source `AddGlider(x, y)`: five writes, in source order. -/
def AddGlider (cells : Grid) (x y : Int) : Outcome Grid :=
  (stamp cells (x + 2) (y + 2)).andThen fun c =>
  (stamp c (x + 2) (y + 3)).andThen fun c =>
  (stamp c (x + 3) (y + 2)).andThen fun c =>
  (stamp c (x + 4) (y + 2)).andThen fun c =>
  stamp c (x + 3) (y + 4)

/-- Source `AddAcorn(x, y)`: seven writes, in source order. -/
def AddAcorn (cells : Grid) (x y : Int) : Outcome Grid :=
  (stamp cells (x + 1) (y + 0)).andThen fun c =>
  (stamp c (x + 3) (y + 1)).andThen fun c =>
  (stamp c (x + 0) (y + 2)).andThen fun c =>
  (stamp c (x + 1) (y + 2)).andThen fun c =>
  (stamp c (x + 4) (y + 2)).andThen fun c =>
  (stamp c (x + 5) (y + 2)).andThen fun c =>
  stamp c (x + 6) (y + 2)

/-- Source `AddDiehard(x, y)`: seven writes, in source order. -/
def AddDiehard (cells : Grid) (x y : Int) : Outcome Grid :=
  (stamp cells (x + 0) (y + 1)).andThen fun c =>
  (stamp c (x + 1) (y + 1)).andThen fun c =>
  (stamp c (x + 1) (y + 2)).andThen fun c =>
  (stamp c (x + 5) (y + 2)).andThen fun c =>
  (stamp c (x + 6) (y + 0)).andThen fun c =>
  (stamp c (x + 6) (y + 2)).andThen fun c =>
  stamp c (x + 7) (y + 2)

/-- The rule table `map[bool]map[int]bool`: `rule alive n` is `rule[alive][n]`,
`false` for a key that was never set. -/
abbrev Rule := Bool → Int → Bool

/-- Source `MakeCells()`: `Width` columns of `Height` dead cells; `make` panics
on a negative length.  The lengths are taken to be ones the runtime can
allocate: the loop of `RefreshCells` calls it at the size of the grid it
already holds, and `Setup`, which passes lengths never allocated before, asks
its allocator first. -/
def MakeCells (Width Height : Int) : Option Grid :=
  if Width < 0 then none
  else if 0 < Width ∧ Height < 0 then none
  else some (List.replicate Width.toNat (List.replicate Height.toNat false))

/-- The two buffers of a generation step: the current world `*Cells` and the
freshly made `target`. -/
structure Buffers where
  Cells : Grid
  target : Grid
  deriving DecidableEq, Repr

/-- Body of the inner loop of `RefreshCells`, drawing aside:
`count = Count(x, y); target[x][y] = rule[alive][count]`. -/
def refreshCell (rule : Rule) (x y : Int) (alive : Bool) (b : Buffers) : Option Buffers :=
  match Count b.Cells x y with
  | none => none
  | some count =>
    match setCell b.target x y (rule alive count) with
    | none => none
    | some target' => some { b with target := target' }

/-- Inner loop `for y, alive = range l`, started at index `y`. -/
def refreshLine (rule : Rule) (x : Int) : Int → List Bool → Buffers → Option Buffers
  | _, [], b => some b
  | y, alive :: l, b =>
    match refreshCell rule x y alive b with
    | none => none
    | some b' => refreshLine rule x (y + 1) l b'

/-- Outer loop `for x, l = range *Cells`, started at index `x`. -/
def refreshLines (rule : Rule) : Int → List (List Bool) → Buffers → Option Buffers
  | _, [], b => some b
  | x, l :: rest, b =>
    match refreshLine rule x 0 l b with
    | none => none
    | some b' => refreshLines rule (x + 1) rest b'

/-- One generation step: the body of the `RefreshCells` loop from
`targetp = MakeCells()` to the end of the nested `range` loops. -/
def generation (rule : Rule) (Width Height : Int) (cells : Grid) : Option Buffers :=
  match MakeCells Width Height with
  | none => none
  | some target => refreshLines rule 0 cells { Cells := cells, target := target }

/-- A Go string, as its sequence of bytes. -/
abbrev GoString := List Nat

/-- The bytes of a string of ASCII characters. -/
def ascii (s : String) : GoString := s.toList.map Char.toNat

/-- The empty rule table the program starts with:
`map[bool]map[int]bool{true: {}, false: {}}`. -/
def emptyRule : Rule := fun _ _ => false

/-- The map write `rule[alive][n] = true`. -/
def Rule.set (r : Rule) (alive : Bool) (n : Int) : Rule :=
  fun a k => if a = alive ∧ k = n then true else r a k

/-- Cut a string at its first `"/"` (byte 47), if it has one. -/
def cutSlash : GoString → Option (GoString × GoString)
  | [] => none
  | c :: rest =>
    if c = 47 then some ([], rest)
    else
      match cutSlash rest with
      | none => none
      | some (a, b) => some (c :: a, b)

/-- Library call `strings.SplitN(s, "/", 2)`: the string itself when it has no
`"/"`, otherwise what stands before and after the first one. -/
def SplitN2 (s : GoString) : List GoString :=
  match cutSlash s with
  | none => [s]
  | some (a, b) => [a, b]

/-- Library call `strconv.Atoi` on one piece of `strings.Split(rest, "")`.  The
pieces are the UTF-8 sequences of `rest`; an ASCII byte is a piece of its own,
and `Atoi` accepts a one-character piece exactly when it is a digit `'0'..'9'`
(bytes 48..57), so a piece holding any other byte is an error (`none`). -/
def Atoi (c : Nat) : Option Int :=
  if 48 ≤ c ∧ c ≤ 57 then some ((c : Int) - 48) else none

/-- Inner loop of `init` over the characters after the name: `Atoi`, panic on
error, then the `switch name` (`"B"` is byte 66, `"S"` is byte 83; any other
name falls through the switch). -/
def initDigits (name : Nat) : GoString → Rule → Option Rule
  | [], r => some r
  | c :: rest, r =>
    match Atoi c with
    | none => none
    | some n =>
      initDigits name rest
        (if name = 66 then r.set false n else if name = 83 then r.set true n else r)

/-- One part: `name, rest := string(part[0]), part[1:]` (a panic on the empty
part) and the loop over `rest`. -/
def initPart (part : GoString) (r : Rule) : Option Rule :=
  match part with
  | [] => none
  | name :: rest => initDigits name rest r

/-- Outer loop of `init` over the parts of the rule string. -/
def initParts : List GoString → Rule → Option Rule
  | [], r => some r
  | part :: parts, r =>
    match initPart part r with
    | none => none
    | some r' => initParts parts r'

/-- The rule-parsing loop of `init`, run on the rule string from the empty
table; `none` is a panic. -/
def initRule (s : GoString) : Option Rule :=
  initParts (SplitN2 s) emptyRule

/-- The rule string `"B<b>/S<s>"` for digit lists `b` and `s`. -/
def ruleBS (b s : List Nat) : GoString :=
  66 :: (b.map (· + 48) ++ 47 :: 83 :: s.map (· + 48))

/-- The rule string `"S<s>/B<b>"` for digit lists `b` and `s`. -/
def ruleSB (b s : List Nat) : GoString :=
  83 :: (s.map (· + 48) ++ 47 :: 66 :: b.map (· + 48))

/-- The default rule `B3/S23`, as `init` builds it. -/
def conway : Rule := (initRule (ascii "B3/S23")).getD emptyRule

/-- A queued command: the closures `HandleEvents` builds for the three mouse
buttons, with the cell coordinates they pass on. -/
inductive Cmd where
  | toggle (x y : Int)
  | acorn (x y : Int)
  | glider (x y : Int)
  deriving DecidableEq, Repr

/-- Calling the closure `fun()` on the current world. -/
def Cmd.run : Cmd → Grid → Outcome Grid
  | .toggle x y, cells => ToggleCell cells x y
  | .acorn x y, cells => AddAcorn cells x y
  | .glider x y, cells => AddGlider cells x y

/-- The global variables of the program the engine reads and writes, and the
buffered channel `ch` (capacity 10) as a FIFO list.  `called` is a history
variable, not a variable of the program: the closures called so far, in call
order. -/
structure World where
  Width : Int
  Height : Int
  Cells : Grid
  Running : Bool
  Paused : Bool
  ch : List Cmd
  called : List Cmd
  deriving DecidableEq, Repr

/-- Call `fun()` in world `w`: it acts on the grid `Cells` points to. -/
def call (w : World) (f : Cmd) : Outcome World :=
  match f.run w.Cells with
  | .done g => .done { w with Cells := g, called := w.called ++ [f] }
  | .panic g => .panic { w with Cells := g, called := w.called ++ [f] }
  | .blocked g => .blocked { w with Cells := g, called := w.called ++ [f] }

/-- Source `queue(ch, fun)`; drawing is left out.  A send on the full channel
blocks. -/
def queue (w : World) (f : Cmd) : Outcome World :=
  if !w.Running then .done w
  else if w.Paused then call w f
  else if w.ch.length < 10 then .done { w with ch := w.ch ++ [f] }
  else .blocked w

/-- The `select` of `RefreshCells`: receive one command if the channel holds
one and call it, otherwise take the `default` branch. -/
def selectCmd (w : World) : Outcome World :=
  match w.ch with
  | [] => .done w
  | f :: rest => call { w with ch := rest } f

/-- One iteration of the loop of `RefreshCells`, drawing and delay left out:
compute `target` from `*Cells`, run the `select`, then `Cells = targetp`. -/
def RefreshCellsBody (rule : Rule) (w : World) : Outcome World :=
  match generation rule w.Width w.Height w.Cells with
  | none => .panic w
  | some b =>
    (selectCmd { w with Cells := b.Cells }).andThen fun w' =>
      .done { w' with Cells := b.target }

/-- Source `RefreshCells(ch)`, cut off after `n` iterations: the loop
`for Running && !Paused`. -/
def RefreshCells (rule : Rule) : Nat → World → Outcome World
  | 0, w => .done w
  | n + 1, w =>
    if w.Running && !w.Paused then
      (RefreshCellsBody rule w).andThen (RefreshCells rule n)
    else .done w

/-- Whether the runtime grants the allocations of `MakeRects()` and
`MakeCells()` for a world of the given width and height.  It stands for what
the program text does not fix: `make` panics on a length beyond its limit, and
the process dies when memory runs out. -/
abbrev Allocator := Int → Int → Bool

/-- An example machine: it grants every world of at most 4096 x 4096 cells. -/
def roomy : Allocator := fun W H => decide (W ≤ 4096 ∧ H ≤ 4096)

/-- The world `Setup` leaves behind, before the channel is made.  The call
`MakeRects(), MakeCells()` fails when the runtime does not grant the
allocations or a length is negative; the loop filling `rects` writes no
cell. -/
def Setup (grants : Allocator) (Width Height : Int) : Outcome World :=
  if grants Width Height = false then .panic ⟨Width, Height, [], false, false, [], []⟩
  else
    match MakeCells Width Height with
    | none => .panic ⟨Width, Height, [], false, false, [], []⟩
    | some cells =>
      match AddGlider cells (Int.tdiv Width 2) (Int.tdiv Height 2) with
      | .done g => .done ⟨Width, Height, g, true, true, [], []⟩
      | .panic g => .panic ⟨Width, Height, g, false, false, [], []⟩
      | .blocked g => .blocked ⟨Width, Height, g, false, false, [], []⟩

/-- The world and rule are in step: `Cells` is a `Width` x `Height` rectangle. -/
def WellFormed (w : World) (W H : Nat) : Prop :=
  w.Width = W ∧ w.Height = H ∧ Rect w.Cells W H

/-- Generation steps, `n` in a row, with no command queued: each iteration ends
with `Cells = targetp`. -/
def generations (rule : Rule) (Width Height : Int) : Nat → Grid → Option Grid
  | 0, cells => some cells
  | n + 1, cells =>
    match generation rule Width Height cells with
    | none => none
    | some b => generations rule Width Height n b.target

/-- The `W`x`H` grid whose cell `(x, y)` is `f x y`. -/
def gridOf (W H : Nat) (f : Int → Int → Bool) : Grid :=
  (List.range W).map fun (x : Nat) => (List.range H).map fun (y : Nat) => f (x : Int) (y : Int)

/-- Membership of `(x, y)` in a list of live cells. -/
def liveIn (L : List (Int × Int)) (x y : Int) : Bool :=
  L.any fun p => p.1 == x && p.2 == y

/-- Whether cell `p` lies in the square `[lo, hi] x [lo, hi]`. -/
def inBox (lo hi : Int) (p : Int × Int) : Bool :=
  decide (lo ≤ p.1 ∧ p.1 ≤ hi ∧ lo ≤ p.2 ∧ p.2 ≤ hi)

/-- The neighbour sum of `moduloCount`, on a cell function instead of a grid. -/
def countFn (W H : Int) (f : Int → Int → Bool) (x y : Int) : Int :=
  (([(-1, -1), (0, -1), (1, -1), (-1, 0), (1, 0), (-1, 1), (0, 1), (1, 1)] :
      List (Int × Int)).map
    (fun d => if f ((x + d.1 + W) % W) ((y + d.2 + H) % H) then (1 : Int) else 0)).sum

/-- The next state of cell `(x, y)` on a cell function. -/
def nextFn (rule : Rule) (W H : Int) (f : Int → Int → Bool) (x y : Int) : Bool :=
  rule (f x y) (countFn W H f x y)

/-- The all-dead 40x40 world. -/
def dead40 : Grid := List.replicate 40 (List.replicate 40 false)

/-- Live cells right after `AddGlider(10, 10)` on the dead world. -/
def glider0 : List (Int × Int) := [(12, 12), (12, 13), (13, 12), (14, 12), (13, 14)]

/-- Live cells one generation after the stamp. -/
def glider1 : List (Int × Int) := [(12, 12), (12, 13), (13, 11), (13, 12), (14, 13)]

/-- Live cells two generations after the stamp. -/
def glider2 : List (Int × Int) := [(12, 11), (12, 12), (12, 13), (13, 11), (14, 12)]

/-- Live cells three generations after the stamp. -/
def glider3 : List (Int × Int) := [(11, 12), (12, 11), (12, 12), (13, 11), (13, 13)]

/-- Live cells four generations after the stamp: `glider0` moved by `(-1, -1)`. -/
def glider4 : List (Int × Int) := [(11, 11), (11, 12), (12, 11), (13, 11), (12, 13)]

/-- Whether cell `p` lies in a `W`x`H` grid. -/
def inGrid (W H : Nat) (p : Int × Int) : Bool :=
  decide (0 ≤ p.1 ∧ p.1 < W ∧ 0 ≤ p.2 ∧ p.2 < H)

/-- The cells `AddGlider(x, y)` writes, in source order. -/
def gliderCells (x y : Int) : List (Int × Int) :=
  [(x + 2, y + 2), (x + 2, y + 3), (x + 3, y + 2), (x + 4, y + 2), (x + 3, y + 4)]

/-- The cells `AddAcorn(x, y)` writes, in source order. -/
def acornCells (x y : Int) : List (Int × Int) :=
  [(x + 1, y + 0), (x + 3, y + 1), (x + 0, y + 2), (x + 1, y + 2), (x + 4, y + 2),
    (x + 5, y + 2), (x + 6, y + 2)]

/-- The cells `AddDiehard(x, y)` writes, in source order. -/
def diehardCells (x y : Int) : List (Int × Int) :=
  [(x + 0, y + 1), (x + 1, y + 1), (x + 1, y + 2), (x + 5, y + 2), (x + 6, y + 0),
    (x + 6, y + 2), (x + 7, y + 2)]

/-- The writes `cells[p.1][p.2] = true` for the cells of a list, one after the
other, stopping at the first panic. -/
def stampAll (cells : Grid) : List (Int × Int) → Outcome Grid
  | [] => .done cells
  | p :: ps => (stamp cells p.1 p.2).andThen fun c => stampAll c ps

/-- The cells a command reads or writes. -/
def Cmd.cells : Cmd → List (Int × Int)
  | .toggle x y => [(x, y)]
  | .acorn x y => acornCells x y
  | .glider x y => gliderCells x y

/-- Whether all cells of a command lie in a `W`x`H` grid. -/
def Cmd.inGrid (W H : Nat) (c : Cmd) : Bool :=
  c.cells.all (Life.inGrid W H)

/-- The 10x10 world right after `Setup`, unpaused, with one left click on cell
`(0,0)` waiting in the channel. -/
def clickWorld : World :=
  { (Setup roomy 10 10).state with Paused := false, ch := [Cmd.toggle 0 0] }

/-- The generation that follows the start world of the 10x10 run. -/
def next10 : Grid := gridOf 10 10 (liveIn [(7, 7), (7, 8), (8, 6), (8, 7), (9, 8)])

instance (cells : Grid) (W H : Nat) : Decidable (Rect cells W H) := by
  unfold Rect; infer_instance

instance (w : World) (W H : Nat) : Decidable (WellFormed w W H) := by
  unfold WellFormed; infer_instance

/-- The number of live cells of a grid. -/
def liveCount (g : Grid) : Nat := (g.map (List.count true)).sum

/-- The picture in the doc comment of `AddGlider`, read with the column number
as the x offset and the row number as the y offset, row by row. -/
def gliderPicture (x y : Int) : List (Int × Int) :=
  [(x + 0, y + 0), (x + 1, y + 0), (x + 0, y + 1), (x + 2, y + 1), (x + 0, y + 2)]

/-- The picture in the doc comment of `AddAcorn`, read the same way. -/
def acornPicture (x y : Int) : List (Int × Int) :=
  [(x + 1, y + 0), (x + 3, y + 1), (x + 0, y + 2), (x + 1, y + 2), (x + 4, y + 2),
    (x + 5, y + 2), (x + 6, y + 2)]

/-- The picture in the doc comment of `AddDiehard`, read the same way. -/
def diehardPicture (x y : Int) : List (Int × Int) :=
  [(x + 6, y + 0), (x + 0, y + 1), (x + 1, y + 1), (x + 1, y + 2), (x + 5, y + 2),
    (x + 6, y + 2), (x + 7, y + 2)]

/-- Source `TogglePause(ch)`: the world afterwards, and whether the statement
`go RefreshCells(ch)` was executed. -/
def TogglePause (w : World) : World × Bool :=
  if w.Paused then ({ w with Paused := false }, true)
  else ({ w with Paused := true }, false)

/-- Where a `RefreshCells` task stands: about to test the loop condition
`Running && !Paused`, or inside the loop body. -/
inductive Phase where
  | top
  | body
  deriving DecidableEq, Repr

/-- The running program: the shared world and the live `RefreshCells` tasks. -/
structure Sys where
  world : World
  tasks : List Phase
  deriving DecidableEq, Repr

/-- One scheduling step: the foreground calls `TogglePause`, or task `i` tests
its loop condition, or task `i` runs its loop body. -/
inductive Event where
  | toggle
  | test (i : Nat)
  | body (i : Nat)
  deriving DecidableEq, Repr

/-- The effect of one scheduling step.  A task that finds its loop condition
false returns and is gone; a panic ends the program and with it every task; a
step that is not enabled changes nothing. -/
def Sys.step (rule : Rule) (s : Sys) : Event → Sys
  | .toggle =>
    { world := (TogglePause s.world).1,
      tasks := if (TogglePause s.world).2 then s.tasks ++ [Phase.top] else s.tasks }
  | .test i =>
    match s.tasks[i]? with
    | some Phase.top =>
      if s.world.Running && !s.world.Paused then
        { s with tasks := s.tasks.set i Phase.body }
      else { s with tasks := s.tasks.eraseIdx i }
    | _ => s
  | .body i =>
    match s.tasks[i]? with
    | some Phase.body =>
      match RefreshCellsBody rule s.world with
      | .done w => { world := w, tasks := s.tasks.set i Phase.top }
      | .panic w => { world := w, tasks := [] }
      | .blocked w => { world := w, tasks := s.tasks }
    | _ => s

/-- A run: the scheduling steps of a list, one after the other. -/
def Sys.run (rule : Rule) (s : Sys) : List Event → Sys
  | [] => s
  | e :: es => Sys.run rule (s.step rule e) es

/-- Whether, along a run, every `TogglePause` that resumes (found `Paused`
true) happens while no task is live. -/
def Sys.resumesIdle (rule : Rule) (s : Sys) : List Event → Bool
  | [] => true
  | e :: es =>
    (match e with
      | .toggle => !s.world.Paused || s.tasks.isEmpty
      | _ => true) && Sys.resumesIdle rule (s.step rule e) es

/-- A run with a patient user: resume, the task enters its loop, pause, the
task ends its iteration, sees the pause at its loop test and returns, resume. -/
def patientRun : List Event :=
  [Event.toggle, Event.test 0, Event.toggle, Event.body 0, Event.test 0, Event.toggle]

/-- A run with a hasty user: resume, the task enters its loop, then pause and
resume again while the task is still inside the loop body. -/
def hastyRun : List Event :=
  [Event.toggle, Event.test 0, Event.toggle, Event.toggle]

/-- The program right after `Setup` on a 10x10 world: paused, no task yet. -/
def start10 : Sys := { world := (Setup roomy 10 10).state, tasks := [] }

/-- The 10x10 world right after `Setup`, after the engine was stopped. -/
def stopped10 : World := { (Setup roomy 10 10).state with Running := false }

/-- The neighbour index in one direction of the torus: with `m = 0` the plain
index, otherwise the index modulo `m`. -/
def wrapM (m : Nat) (x : Int) : Int :=
  if m = 0 then x else x % (m : Int)

/-- The neighbour sum of `countFn` with the wrap of each direction given by
`wrapM`. -/
def countM (mx my : Nat) (f : Int → Int → Bool) (x y : Int) : Int :=
  (([(-1, -1), (0, -1), (1, -1), (-1, 0), (1, 0), (-1, 1), (0, 1), (1, 1)] :
      List (Int × Int)).map
    (fun d => if f (wrapM mx (x + d.1)) (wrapM my (y + d.2)) then (1 : Int) else 0)).sum

/-- How a direction of `n` cells is treated when the live cells reach up to
index `hi`: modulo `n` when the grid ends right there, plainly when there is a
spare line behind them. -/
def modeOf (hi n : Nat) : Nat :=
  if n = hi + 1 then n else 0

/-- First index to compute in a direction: all of it when it wraps, otherwise
from one line before the live cells. -/
def firstOf (lo : Int) (m : Nat) : Int :=
  if m = 0 then lo - 1 else 0

/-- Number of indices to compute in a direction. -/
def spanOf (k m : Nat) : Nat :=
  if m = 0 then k else m

/-- The 10x10 world right after `Setup`, unpaused, with an empty channel. -/
def running10 : World := { (Setup roomy 10 10).state with Paused := false }

/-! ## Slice indexing -/

theorem index_natCast {α : Type} (s : List α) (n : Nat) : index s (n : Int) = s[n]? := by
  simp [index]

theorem index_eq_some_iff {α : Type} (s : List α) (i : Int) (a : α) :
    index s i = some a ↔ 0 ≤ i ∧ s[i.toNat]? = some a := by
  unfold index
  split
  · constructor
    · intro h; cases h
    · rintro ⟨h, -⟩; omega
  · constructor
    · intro h; exact ⟨by omega, h⟩
    · rintro ⟨-, h⟩; exact h

theorem index_eq_none_iff {α : Type} (s : List α) (i : Int) :
    index s i = none ↔ i < 0 ∨ (s.length : Int) ≤ i := by
  unfold index
  split
  · simp [*]
  · rw [List.getElem?_eq_none_iff]
    omega

/-! ## Cell writes -/

theorem assign_natCast {α : Type} (s : List α) (n : Nat) (v : α) (h : n < s.length) :
    assign s (n : Int) v = some (s.set n v) := by
  simp [assign, h]

theorem live_natCast (g : Grid) (x y : Nat) :
    live g x y = (Option.bind (g[x]?) (fun l => l[y]?)).getD false := by
  unfold live
  rw [index_natCast]
  cases g[x]? with
  | none => rfl
  | some line => simp [index_natCast]

theorem live_of_neg_left (g : Grid) (x y : Int) (h : x < 0) : live g x y = false := by
  simp [live, index, h]

theorem live_of_neg_right (g : Grid) (x y : Int) (h : y < 0) : live g x y = false := by
  unfold live
  cases index g x with
  | none => rfl
  | some line => simp [index, h]

/-- A write to an in-range cell of a rectangular grid succeeds, keeps the shape,
sets that cell and changes no other. -/
theorem setCell_spec (g : Grid) (W H : Nat) (hr : Rect g W H) (x y : Nat)
    (hx : x < W) (hy : y < H) (v : Bool) :
    ∃ g', setCell g x y v = some g' ∧ Rect g' W H ∧ live g' x y = v ∧
      ∀ x' y' : Int, ¬ (x' = x ∧ y' = y) → live g' x' y' = live g x' y' := by
  obtain ⟨hlen, hcol⟩ := hr
  have hxL : x < g.length := by omega
  have hline : (g[x]).length = H := hcol _ (List.getElem_mem _)
  have hyL : y < (g[x]).length := by omega
  refine ⟨g.set x ((g[x]).set y v), ?_, ⟨?_, ?_⟩, ?_, ?_⟩
  · unfold setCell
    rw [index_natCast, List.getElem?_eq_getElem hxL]
    simp only []
    rw [assign_natCast _ _ _ hyL]
    simp only []
    rw [assign_natCast _ _ _ hxL]
  · simp [hlen]
  · intro col hc
    rcases List.mem_or_eq_of_mem_set hc with h | h
    · exact hcol _ h
    · subst h; simp [hline]
  · rw [live_natCast]
    simp [hxL, hyL]
  · intro x' y' hne
    by_cases hx' : x' < 0
    · rw [live_of_neg_left _ _ _ hx', live_of_neg_left _ _ _ hx']
    by_cases hy' : y' < 0
    · rw [live_of_neg_right _ _ _ hy', live_of_neg_right _ _ _ hy']
    obtain ⟨a, rfl⟩ : ∃ a : Nat, x' = a := ⟨x'.toNat, by omega⟩
    obtain ⟨b, rfl⟩ : ∃ b : Nat, y' = b := ⟨y'.toNat, by omega⟩
    rw [live_natCast, live_natCast]
    by_cases hxa : x = a
    · subst hxa
      have hyb : y ≠ b := by
        intro h; apply hne; subst h; exact ⟨rfl, rfl⟩
      simp [hxL, List.getElem?_set, hyb]
    · simp [List.getElem?_set, hxa]

/-! ## Neighbour counting (C1) -/

/-- On the arguments `Count` passes for an in-range cell, the subtractive wrap of
`check` lands on the modulo-wrapped index. -/
theorem force_eq_emod (n : Nat) (hn : 1 ≤ n) (x : Int) (h1 : -1 ≤ x) (h2 : x ≤ n) :
    ∃ i : Nat, i < n ∧ force n x = i ∧ (x + n) % n = i := by
  by_cases hneg : x < 0
  · refine ⟨n - 1, by omega, ?_, ?_⟩
    · unfold force; rw [if_neg (by omega)]; omega
    · have hx : x = -1 := by omega
      subst hx
      rw [Int.emod_eq_of_lt (by omega) (by omega)]; omega
  · by_cases hlt : x < n
    · refine ⟨x.toNat, by omega, ?_, ?_⟩
      · unfold force; rw [if_pos (by omega), if_pos (by omega)]; omega
      · rw [Int.add_emod_self, Int.emod_eq_of_lt (by omega) hlt]; omega
    · have hx : x = n := by omega
      subst hx
      refine ⟨0, by omega, ?_, ?_⟩
      · unfold force; rw [if_pos (by omega), if_neg (by omega)]; simp
      · simp

theorem check_eq_live (cells : Grid) (W H : Nat) (hr : Rect cells W H)
    (hW : 1 ≤ W) (hH : 1 ≤ H) (x y : Int)
    (hx1 : -1 ≤ x) (hx2 : x ≤ W) (hy1 : -1 ≤ y) (hy2 : y ≤ H) :
    check cells x y = some (if live cells ((x + W) % W) ((y + H) % H) then 1 else 0) := by
  obtain ⟨i, hi, hfi, hmi⟩ := force_eq_emod W hW x hx1 hx2
  obtain ⟨j, hj, hfj, hmj⟩ := force_eq_emod H hH y hy1 hy2
  obtain ⟨hlen, hcol⟩ := hr
  have hiL : i < cells.length := by omega
  have hline : (cells[i]).length = H := hcol _ (List.getElem_mem _)
  have hjL : j < (cells[i]).length := by omega
  have e1 : index cells (i : Int) = some cells[i] := by
    rw [index_natCast, List.getElem?_eq_getElem hiL]
  have e2 : index cells[i] (j : Int) = some (cells[i])[j] := by
    rw [index_natCast, List.getElem?_eq_getElem hjL]
  unfold check live
  rw [hlen, hfi, hmi, hmj, e1]
  simp only []
  rw [hline, hfj]
  simp [e2]

theorem Count_eq_some_moduloCount (cells : Grid) (W H : Nat) (hr : Rect cells W H)
    (hW : 1 ≤ W) (hH : 1 ≤ H) (x y : Int)
    (hx1 : 0 ≤ x) (hx2 : x < W) (hy1 : 0 ≤ y) (hy2 : y < H) :
    Count cells x y = some (moduloCount cells W H x y) := by
  have c := check_eq_live cells W H hr hW hH
  unfold Count
  rw [c (x - 1) (y - 1) (by omega) (by omega) (by omega) (by omega),
    c x (y - 1) (by omega) (by omega) (by omega) (by omega),
    c (x + 1) (y - 1) (by omega) (by omega) (by omega) (by omega),
    c (x - 1) y (by omega) (by omega) (by omega) (by omega),
    c (x + 1) y (by omega) (by omega) (by omega) (by omega),
    c (x - 1) (y + 1) (by omega) (by omega) (by omega) (by omega),
    c x (y + 1) (by omega) (by omega) (by omega) (by omega),
    c (x + 1) (y + 1) (by omega) (by omega) (by omega) (by omega)]
  simp only [moduloCount, List.map, List.sum_cons, List.sum_nil, Option.bind_eq_bind,
    Option.some_bind, Option.pure_def, Int.sub_eq_add_neg, Int.add_zero]
  congr 1
  ring

/-- C1: for a rectangular grid of width `W ≥ 1` and height `H ≥ 1` and an
in-range cell `(x, y)`, `Count(x, y)` returns the number of live cells among the
eight positions `((x+dx+W) mod W, (y+dy+H) mod H)`; on the 5x5 grid whose only
live cell is `(0,0)`, `Count(4,4)` is 1. -/
theorem Count_is_toroidal_neighbour_sum :
    (∀ (cells : Grid) (W H : Nat), Rect cells W H → 1 ≤ W → 1 ≤ H →
      ∀ x y : Int, 0 ≤ x → x < W → 0 ≤ y → y < H →
        Count cells x y = some (moduloCount cells W H x y)) ∧
    Count corner5 4 4 = some 1 :=
  ⟨fun cells W H hr hW hH x y hx1 hx2 hy1 hy2 =>
      Count_eq_some_moduloCount cells W H hr hW hH x y hx1 hx2 hy1 hy2,
    by decide⟩

/-- The general statement of C1 applied to the 5x5 example grid at `(4,4)`. -/
theorem Count_is_toroidal_neighbour_sum_witness :
    Rect corner5 5 5 ∧ Count corner5 4 4 = some (moduloCount corner5 5 5 4 4) ∧
      moduloCount corner5 5 5 4 4 = 1 :=
  ⟨by simp [Rect, corner5],
    Count_is_toroidal_neighbour_sum.1 corner5 5 5 (by simp [Rect, corner5]) (by decide)
      (by decide) 4 4 (by decide) (by decide) (by decide) (by decide),
    by decide⟩

/-! ## The generation step (C2) -/

theorem MakeCells_natCast (W H : Nat) :
    MakeCells W H = some (List.replicate W (List.replicate H false)) := by
  unfold MakeCells
  rw [if_neg (by omega), if_neg (by omega)]
  simp

theorem Rect_replicate (W H : Nat) (v : Bool) :
    Rect (List.replicate W (List.replicate H v)) W H := by
  refine ⟨by simp, ?_⟩
  intro col hc
  rw [List.eq_of_mem_replicate hc]
  simp

/-- Inner loop invariant: the loop over the rest `l` of column `x`, entered at
index `y`, completes, keeps the current grid and the shape of `target`, writes
the rule's verdict into the cells it visits and touches no other cell. -/
theorem refreshLine_spec (rule : Rule) (cells : Grid) (W H : Nat) (hr : Rect cells W H)
    (x : Nat) (hx : x < W) :
    ∀ (l : List Bool) (y : Nat) (t : Grid), Rect t W H → y + l.length ≤ H →
      ∃ t', refreshLine rule x y l ⟨cells, t⟩ = some ⟨cells, t'⟩ ∧ Rect t' W H ∧
        (∀ k (hk : k < l.length), ∃ c, Count cells x ((y + k : Nat) : Int) = some c ∧
            live t' x ((y + k : Nat) : Int) = rule l[k] c) ∧
        (∀ x' y' : Int, ¬ (x' = x ∧ (y : Int) ≤ y' ∧ y' < y + l.length) →
            live t' x' y' = live t x' y') := by
  intro l
  induction l with
  | nil =>
    intro y t ht _
    exact ⟨t, rfl, ht, fun k hk => absurd hk (by simp), fun _ _ _ => rfl⟩
  | cons alive rest ih =>
    intro y t ht hy
    simp only [List.length_cons] at hy
    have hyH : y < H := by omega
    have hc : Count cells x y = some (moduloCount cells W H x y) :=
      Count_eq_some_moduloCount cells W H hr (by omega) (by omega) x y
        (by omega) (by omega) (by omega) (by omega)
    obtain ⟨t1, h1, hr1, hv1, hf1⟩ :=
      setCell_spec t W H ht x y hx hyH (rule alive (moduloCount cells W H x y))
    obtain ⟨t', h2, hr2, hv2, hf2⟩ := ih (y + 1) t1 hr1 (by omega)
    have hcast : ((y : Int) + 1) = ((y + 1 : Nat) : Int) := by push_cast; rfl
    refine ⟨t', ?_, hr2, ?_, ?_⟩
    · simp only [refreshLine, refreshCell, hc, h1]
      rw [hcast]; exact h2
    · intro k hk
      cases k with
      | zero =>
        refine ⟨_, hc, ?_⟩
        simp only [Nat.add_zero, List.getElem_cons_zero]
        rw [hf2 x y (by omega), hv1]
      | succ k =>
        obtain ⟨c', hc', hv'⟩ := hv2 k (by simpa using hk)
        have e : y + (k + 1) = y + 1 + k := by omega
        refine ⟨c', ?_, ?_⟩
        · rw [e]; exact hc'
        · rw [e]; simpa using hv'
    · intro x' y' hne
      simp only [List.length_cons] at hne
      rw [hf2 x' y' (by push_cast; omega), hf1 x' y' (by omega)]

/-- Outer loop invariant: same statement, for whole columns. -/
theorem refreshLines_spec (rule : Rule) (cells : Grid) (W H : Nat) (hr : Rect cells W H) :
    ∀ (rows : List (List Bool)) (x : Nat) (t : Grid), Rect t W H → x + rows.length ≤ W →
      (∀ k (hk : k < rows.length), cells[x + k]? = some rows[k]) →
      ∃ t', refreshLines rule x rows ⟨cells, t⟩ = some ⟨cells, t'⟩ ∧ Rect t' W H ∧
        (∀ x' y' : Int, (x : Int) ≤ x' → x' < x + rows.length → 0 ≤ y' → y' < H →
            ∃ c, Count cells x' y' = some c ∧ live t' x' y' = rule (live cells x' y') c) ∧
        (∀ x' y' : Int, ¬ ((x : Int) ≤ x' ∧ x' < x + rows.length) →
            live t' x' y' = live t x' y') := by
  intro rows
  induction rows with
  | nil =>
    intro x t ht _ _
    exact ⟨t, rfl, ht, fun x' y' h1 h2 => absurd h2 (by simp; omega), fun _ _ _ => rfl⟩
  | cons l rest ih =>
    intro x t ht hx hrows
    simp only [List.length_cons] at hx
    have hl : cells[x]? = some l := by simpa using hrows 0 (by simp)
    have hlmem : l ∈ cells := List.getElem?_mem hl
    have hlen : l.length = H := hr.2 l hlmem
    obtain ⟨t1, h1, hr1, hv1, hf1⟩ :=
      refreshLine_spec rule cells W H hr x (by omega) l 0 t ht (by omega)
    obtain ⟨t', h2, hr2, hv2, hf2⟩ := ih (x + 1) t1 hr1 (by omega) (by
      intro k hk
      have := hrows (k + 1) (by simpa using hk)
      have e : x + 1 + k = x + (k + 1) := by omega
      rw [e]; simpa using this)
    have hcast : ((x : Int) + 1) = ((x + 1 : Nat) : Int) := by push_cast; rfl
    refine ⟨t', ?_, hr2, ?_, ?_⟩
    · simp only [refreshLines]
      have h1' : refreshLine rule (x : Int) 0 l ⟨cells, t⟩ = some ⟨cells, t1⟩ := by
        simpa using h1
      rw [h1', hcast]; exact h2
    · intro x' y' hx1 hx2 hy1 hy2
      simp only [List.length_cons] at hx2
      by_cases hxx : x' = x
      · subst hxx
        obtain ⟨j, rfl⟩ : ∃ j : Nat, y' = j := ⟨y'.toNat, by omega⟩
        have hj : j < l.length := by omega
        obtain ⟨c, hc, hv⟩ := hv1 j hj
        refine ⟨c, by simpa using hc, ?_⟩
        rw [hf2 x j (by push_cast; omega)]
        have hlive : live cells x j = l[j] := by
          rw [live_natCast, hl]
          simp [List.getElem?_eq_getElem hj]
        rw [hlive]
        simpa using hv
      · exact hv2 x' y' (by push_cast; omega) (by push_cast; omega) hy1 hy2
    · intro x' y' hne
      simp only [List.length_cons] at hne
      rw [hf2 x' y' (by push_cast; omega), hf1 x' y' (by omega)]

/-- One generation step on a `W`x`H` world completes; it returns the current
grid as it was and a `W`x`H` target holding the rule's verdict for every cell. -/
theorem generation_spec (rule : Rule) (cells : Grid) (W H : Nat) (hr : Rect cells W H) :
    ∃ target, generation rule W H cells = some ⟨cells, target⟩ ∧ Rect target W H ∧
      ∀ x y : Int, 0 ≤ x → x < W → 0 ≤ y → y < H →
        ∃ c, Count cells x y = some c ∧ live target x y = rule (live cells x y) c := by
  obtain ⟨t', h, hr', hv, -⟩ :=
    refreshLines_spec rule cells W H hr cells 0 _ (Rect_replicate W H false)
      (by have := hr.1; omega) (by
        intro k hk
        simp [List.getElem?_eq_getElem hk])
  refine ⟨t', ?_, hr', ?_⟩
  · unfold generation
    rw [MakeCells_natCast]
    simpa using h
  · intro x y hx1 hx2 hy1 hy2
    exact hv x y (by simpa using hx1) (by have := hr.1; push_cast; omega) hy1 hy2

/-- C2: on a `W`x`H` world one generation step completes with a fresh `W`x`H`
target in which every cell `(x, y)` is `rule[cur[x][y]][Count(x, y)]`, state and
count both read from the current grid, and the current grid comes out as it went
in; equal current grids and equal rules give equal results. -/
theorem generation_reads_current_only :
    (∀ (rule : Rule) (cells : Grid) (W H : Nat), Rect cells W H →
      ∃ target, generation rule W H cells = some ⟨cells, target⟩ ∧ Rect target W H ∧
        ∀ x y : Int, 0 ≤ x → x < W → 0 ≤ y → y < H →
          ∃ c, Count cells x y = some c ∧ live target x y = rule (live cells x y) c) ∧
    (∀ (rule₁ rule₂ : Rule) (c₁ c₂ : Grid) (W H : Int), rule₁ = rule₂ → c₁ = c₂ →
      generation rule₁ W H c₁ = generation rule₂ W H c₂) :=
  ⟨fun rule cells W H hr => generation_spec rule cells W H hr,
    fun _ _ _ _ _ _ h₁ h₂ => by rw [h₁, h₂]⟩

/-- C2 at the 5x5 example grid under `B3/S23`. -/
theorem generation_reads_current_only_witness :
    Rect corner5 5 5 ∧
      ∃ target, generation conway (5 : Nat) (5 : Nat) corner5 = some ⟨corner5, target⟩ ∧
        Rect target 5 5 ∧
        ∀ x y : Int, 0 ≤ x → x < (5 : Nat) → 0 ≤ y → y < (5 : Nat) →
          ∃ c, Count corner5 x y = some c ∧ live target x y = conway (live corner5 x y) c :=
  ⟨by simp [Rect, corner5],
    generation_reads_current_only.1 conway corner5 5 5 (by simp [Rect, corner5])⟩

/-! ## Rule parsing (C3, C4, C5) -/

theorem cutSlash_digits (ds : List Nat) (rest : GoString) :
    cutSlash (ds.map (· + 48) ++ 47 :: rest) = some (ds.map (· + 48), rest) := by
  induction ds with
  | nil => simp [cutSlash]
  | cons d ds ih =>
    simp only [List.map_cons, List.cons_append]
    rw [cutSlash, if_neg (by omega), ih]

theorem SplitN2_ruleBS (b s : List Nat) :
    SplitN2 (ruleBS b s) = [66 :: b.map (· + 48), 83 :: s.map (· + 48)] := by
  unfold SplitN2 ruleBS
  rw [cutSlash, if_neg (by omega), cutSlash_digits]

theorem SplitN2_ruleSB (b s : List Nat) :
    SplitN2 (ruleSB b s) = [83 :: s.map (· + 48), 66 :: b.map (· + 48)] := by
  unfold SplitN2 ruleSB
  rw [cutSlash, if_neg (by omega), cutSlash_digits]

theorem Atoi_digit (d : Nat) (h : d ≤ 9) : Atoi (d + 48) = some (d : Int) := by
  unfold Atoi
  rw [if_pos (by omega)]
  congr 1
  push_cast
  omega

theorem or_and_regroup (R N D Q : Prop) :
    ((R ∨ (N ∧ D)) ∨ (N ∧ Q)) ↔ (R ∨ (N ∧ (D ∨ Q))) := by
  tauto

theorem Rule.set_apply (r : Rule) (b : Bool) (n : Int) (a : Bool) (k : Int) :
    r.set b n a k = true ↔ r a k = true ∨ (a = b ∧ n = k) := by
  unfold Rule.set
  by_cases h : a = b ∧ k = n
  · rw [if_pos h]
    exact ⟨fun _ => Or.inr ⟨h.1, h.2.symm⟩, fun _ => rfl⟩
  · rw [if_neg h]
    exact ⟨Or.inl, fun h' => h'.elim id fun h'' => absurd ⟨h''.1, h''.2.symm⟩ h⟩

/-- The loop over a run of digits completes and adds exactly those digits to the
set the name selects. -/
theorem initDigits_digits (name : Nat) (ds : List Nat) (h : ∀ d ∈ ds, d ≤ 9) :
    ∀ r : Rule, ∃ r', initDigits name (ds.map (· + 48)) r = some r' ∧
      ∀ (a : Bool) (k : Int), r' a k = true ↔
        r a k = true ∨
          (((name = 66 ∧ a = false) ∨ (name = 83 ∧ a = true)) ∧ ∃ d ∈ ds, (d : Int) = k) := by
  induction ds with
  | nil => intro r; exact ⟨r, rfl, by simp⟩
  | cons d ds ih =>
    intro r
    have hd : d ≤ 9 := h d (by simp)
    obtain ⟨r', hr', hspec⟩ := ih (fun e he => h e (by simp [he]))
      (if name = 66 then r.set false d else if name = 83 then r.set true d else r)
    refine ⟨r', ?_, ?_⟩
    · simp only [List.map_cons, initDigits, Atoi_digit d hd]
      exact hr'
    · intro a k
      have key : (if name = 66 then r.set false d else if name = 83 then r.set true d else r)
            a k = true ↔
          r a k = true ∨ (((name = 66 ∧ a = false) ∨ (name = 83 ∧ a = true)) ∧ (d : Int) = k) := by
        by_cases h66 : name = 66
        · have h83 : ¬ name = 83 := by omega
          rw [if_pos h66, Rule.set_apply]
          tauto
        · by_cases h83 : name = 83
          · rw [if_neg h66, if_pos h83, Rule.set_apply]
            tauto
          · rw [if_neg h66, if_neg h83]
            tauto
      have hex : (∃ e ∈ d :: ds, (e : Int) = k) ↔ ((d : Int) = k ∨ ∃ e ∈ ds, (e : Int) = k) := by
        simp
      rw [hspec a k, key, hex]
      exact or_and_regroup _ _ _ _

/-- The table `init` builds from `"B<b>/S<s>"`. -/
theorem initRule_ruleBS (b s : List Nat) (hb : ∀ d ∈ b, d ≤ 9) (hs : ∀ d ∈ s, d ≤ 9) :
    ∃ r, initRule (ruleBS b s) = some r ∧
      ∀ (a : Bool) (k : Int), r a k = true ↔
        (a = false ∧ ∃ d ∈ b, (d : Int) = k) ∨ (a = true ∧ ∃ d ∈ s, (d : Int) = k) := by
  obtain ⟨r1, h1, s1⟩ := initDigits_digits 66 b hb emptyRule
  obtain ⟨r2, h2, s2⟩ := initDigits_digits 83 s hs r1
  refine ⟨r2, ?_, ?_⟩
  · simp [initRule, SplitN2_ruleBS, initParts, initPart, h1, h2]
  · intro a k
    rw [s2 a k, s1 a k]
    cases a <;> simp [emptyRule]

/-- The table `init` builds from `"S<s>/B<b>"`. -/
theorem initRule_ruleSB (b s : List Nat) (hb : ∀ d ∈ b, d ≤ 9) (hs : ∀ d ∈ s, d ≤ 9) :
    ∃ r, initRule (ruleSB b s) = some r ∧
      ∀ (a : Bool) (k : Int), r a k = true ↔
        (a = false ∧ ∃ d ∈ b, (d : Int) = k) ∨ (a = true ∧ ∃ d ∈ s, (d : Int) = k) := by
  obtain ⟨r1, h1, s1⟩ := initDigits_digits 83 s hs emptyRule
  obtain ⟨r2, h2, s2⟩ := initDigits_digits 66 b hb r1
  refine ⟨r2, ?_, ?_⟩
  · simp [initRule, SplitN2_ruleSB, initParts, initPart, h1, h2]
  · intro a k
    rw [s2 a k, s1 a k]
    cases a <;> simp [emptyRule]


/-- C3: for digit strings `b` and `s` over `0..8`, `init` run on `"B<b>/S<s>"`
completes with a table in which `rule[true][n]` holds iff `n` occurs in `s` and
`rule[false][n]` holds iff `n` occurs in `b`; for `"B3/S23"` this gives
`eval(false,3)`, `eval(true,2)`, `eval(true,3)` true and `eval(false,2)`,
`eval(true,4)`, `eval(true,1)` false. -/
theorem init_builds_born_and_survive_sets :
    (∀ b s : List Nat, (∀ d ∈ b, d ≤ 8) → (∀ d ∈ s, d ≤ 8) →
      ∃ r, initRule (ruleBS b s) = some r ∧
        ∀ n : Nat, (r true n = true ↔ n ∈ s) ∧ (r false n = true ↔ n ∈ b)) ∧
    (initRule (ascii "B3/S23")).map
        (fun r => (r false 3, r false 2, r true 2, r true 3, r true 4, r true 1)) =
      some (true, false, true, true, false, false) := by
  refine ⟨?_, by decide⟩
  intro b s hb hs
  obtain ⟨r, hr, hspec⟩ := initRule_ruleBS b s
    (fun d hd => Nat.le_succ_of_le (hb d hd)) (fun d hd => Nat.le_succ_of_le (hs d hd))
  refine ⟨r, hr, fun n => ⟨?_, ?_⟩⟩
  · rw [hspec true n]; simp
  · rw [hspec false n]; simp

/-- C3 at `b = 3`, `s = 23`, the rule string `"B3/S23"`. -/
theorem init_builds_born_and_survive_sets_witness :
    ruleBS [3] [2, 3] = ascii "B3/S23" ∧
      ∃ r, initRule (ruleBS [3] [2, 3]) = some r ∧
        ∀ n : Nat, (r true n = true ↔ n ∈ [2, 3]) ∧ (r false n = true ↔ n ∈ [3]) :=
  ⟨by decide,
    init_builds_born_and_survive_sets.1 [3] [2, 3] (by decide) (by decide)⟩

/-- C4: for digit strings `b` and `s` over `0..8`, `init` run from the empty
table on `"B<b>/S<s>"` and on `"S<s>/B<b>"` completes with the same table. -/
theorem init_segment_order_irrelevant (b s : List Nat)
    (hb : ∀ d ∈ b, d ≤ 8) (hs : ∀ d ∈ s, d ≤ 8) :
    initRule (ruleBS b s) = initRule (ruleSB b s) ∧ (initRule (ruleBS b s)).isSome = true := by
  have hb9 : ∀ d ∈ b, d ≤ 9 := fun d hd => Nat.le_succ_of_le (hb d hd)
  have hs9 : ∀ d ∈ s, d ≤ 9 := fun d hd => Nat.le_succ_of_le (hs d hd)
  obtain ⟨r1, h1, s1⟩ := initRule_ruleBS b s hb9 hs9
  obtain ⟨r2, h2, s2⟩ := initRule_ruleSB b s hb9 hs9
  have e : r1 = r2 := by
    funext a k
    rw [Bool.eq_iff_iff, s1 a k, s2 a k]
  rw [h1, h2, e]
  exact ⟨rfl, rfl⟩

/-- C4 at `"B3/S23"` and `"S23/B3"`. -/
theorem init_segment_order_irrelevant_witness :
    ruleBS [3] [2, 3] = ascii "B3/S23" ∧ ruleSB [3] [2, 3] = ascii "S23/B3" ∧
      initRule (ruleBS [3] [2, 3]) = initRule (ruleSB [3] [2, 3]) ∧
      (initRule (ruleBS [3] [2, 3])).isSome = true :=
  ⟨by decide, by decide, init_segment_order_irrelevant [3] [2, 3] (by decide) (by decide)⟩

theorem initDigits_non_digit (name : Nat) :
    ∀ (rest : GoString) (r : Rule), (∃ c ∈ rest, ¬ (48 ≤ c ∧ c ≤ 57)) →
      initDigits name rest r = none := by
  intro rest
  induction rest with
  | nil => intro r h; simp at h
  | cons c rest ih =>
    intro r h
    by_cases hc : 48 ≤ c ∧ c ≤ 57
    · have hrest : ∃ c' ∈ rest, ¬ (48 ≤ c' ∧ c' ≤ 57) := by
        obtain ⟨c', hmem, hbad⟩ := h
        rcases List.mem_cons.1 hmem with e | hm
        · subst e; exact absurd hc hbad
        · exact ⟨c', hm, hbad⟩
      simp only [initDigits, Atoi, if_pos hc]
      exact ih _ hrest
    · simp only [initDigits, Atoi, if_neg hc]

theorem initParts_non_digit :
    ∀ (parts : List GoString) (r : Rule),
      (∃ part ∈ parts, ∃ c ∈ part.tail, ¬ (48 ≤ c ∧ c ≤ 57)) → initParts parts r = none := by
  intro parts
  induction parts with
  | nil => intro r h; simp at h
  | cons part parts ih =>
    intro r h
    unfold initParts
    cases hp : initPart part r with
    | none => rfl
    | some r' =>
      simp only []
      apply ih
      obtain ⟨p, hmem, hbad⟩ := h
      rcases List.mem_cons.1 hmem with e | hm
      · subst e
        exfalso
        cases p with
        | nil => simp [initPart] at hp
        | cons name rest =>
          have := initDigits_non_digit name rest r (by simpa using hbad)
          simp [initPart, this] at hp
      · exact ⟨p, hm, hbad⟩

/-- C5, as the code has it: `init` panics on every rule string in which, after
the split at the first `"/"`, some byte after the first byte of a part is not a
decimal digit `'0'..'9'`. -/
theorem init_panics_on_non_digit (s : GoString)
    (h : ∃ part ∈ SplitN2 s, ∃ c ∈ part.tail, ¬ (48 ≤ c ∧ c ≤ 57)) :
    initRule s = none :=
  initParts_non_digit (SplitN2 s) emptyRule h

/-- The amended C5 at the rule string `"Bx/S23"`. -/
theorem init_panics_on_non_digit_witness :
    (∃ part ∈ SplitN2 (ascii "Bx/S23"), ∃ c ∈ part.tail, ¬ (48 ≤ c ∧ c ≤ 57)) ∧
      initRule (ascii "Bx/S23") = none :=
  ⟨by decide, init_panics_on_non_digit (ascii "Bx/S23") (by decide)⟩

/-- C5 as stated fails: `init` completes on `"B9/S23"` (a digit above 8), on
`"X3/S23"` (a letter that is neither `B` nor `S`) and on `"B3"` (no separator);
9 joins the born set, and the digits after `X` are dropped. -/
theorem init_accepts_B9_X3_and_no_separator :
    (initRule (ascii "B9/S23")).map (fun r => (r false 9, r true 2, r true 3)) =
        some (true, true, true) ∧
      (initRule (ascii "X3/S23")).map (fun r => (r false 3, r true 2, r true 3)) =
        some (false, true, true) ∧
      (initRule (ascii "B3")).map (fun r => (r false 3, r true 2, r true 3)) =
        some (true, false, false) := by
  decide

/-! ## Grids given by a cell function -/

theorem Rect_gridOf (W H : Nat) (f : Int → Int → Bool) : Rect (gridOf W H f) W H := by
  refine ⟨by simp [gridOf], ?_⟩
  intro col hc
  simp only [gridOf, List.mem_map] at hc
  obtain ⟨x, -, rfl⟩ := hc
  simp

theorem live_gridOf_natCast (W H : Nat) (f : Int → Int → Bool) (x y : Nat)
    (hx : x < W) (hy : y < H) : live (gridOf W H f) x y = f x y := by
  rw [live_natCast]
  simp [gridOf, List.getElem?_range, hx, hy]

theorem live_gridOf (W H : Nat) (f : Int → Int → Bool) (x y : Int)
    (hx1 : 0 ≤ x) (hx2 : x < W) (hy1 : 0 ≤ y) (hy2 : y < H) :
    live (gridOf W H f) x y = f x y := by
  obtain ⟨a, rfl⟩ : ∃ a : Nat, x = a := ⟨x.toNat, by omega⟩
  obtain ⟨b, rfl⟩ : ∃ b : Nat, y = b := ⟨y.toNat, by omega⟩
  exact live_gridOf_natCast W H f a b (by omega) (by omega)

theorem live_gridOf_outside (W H : Nat) (f : Int → Int → Bool) (x y : Int)
    (h : ¬ (0 ≤ x ∧ x < W ∧ 0 ≤ y ∧ y < H)) : live (gridOf W H f) x y = false := by
  by_cases hx : x < 0
  · exact live_of_neg_left _ _ _ hx
  by_cases hy : y < 0
  · exact live_of_neg_right _ _ _ hy
  obtain ⟨a, rfl⟩ : ∃ a : Nat, x = a := ⟨x.toNat, by omega⟩
  obtain ⟨b, rfl⟩ : ∃ b : Nat, y = b := ⟨y.toNat, by omega⟩
  rw [live_natCast]
  by_cases ha : a < W
  · have hb : (List.range H)[b]? = none := List.getElem?_eq_none (by simp; omega)
    simp [gridOf, List.getElem?_range, ha, hb]
  · have ha' : (List.range W)[a]? = none := List.getElem?_eq_none (by simp; omega)
    simp [gridOf, ha']

theorem live_gridOf_emod (W H : Nat) (hW : 1 ≤ W) (hH : 1 ≤ H) (f : Int → Int → Bool)
    (i j : Int) : live (gridOf W H f) (i % W) (j % H) = f (i % W) (j % H) :=
  live_gridOf W H f _ _ (Int.emod_nonneg _ (by omega)) (Int.emod_lt_of_pos _ (by omega))
    (Int.emod_nonneg _ (by omega)) (Int.emod_lt_of_pos _ (by omega))

theorem moduloCount_gridOf (W H : Nat) (hW : 1 ≤ W) (hH : 1 ≤ H) (f : Int → Int → Bool)
    (x y : Int) : moduloCount (gridOf W H f) W H x y = countFn W H f x y := by
  simp only [moduloCount, countFn, live_gridOf_emod W H hW hH]

theorem live_eq_getElem (g : Grid) (i j : Nat) (hi : i < g.length) (hj : j < (g[i]).length) :
    live g i j = (g[i])[j] := by
  rw [live_natCast]
  simp [List.getElem?_eq_getElem hi, List.getElem?_eq_getElem hj]

/-- Two rectangular grids of one shape with the same cell states are equal. -/
theorem grid_ext (g g' : Grid) (W H : Nat) (hr : Rect g W H) (hr' : Rect g' W H)
    (h : ∀ x y : Nat, x < W → y < H → live g x y = live g' x y) : g = g' := by
  apply List.ext_getElem (by rw [hr.1, hr'.1])
  intro i hi hi'
  have hl : (g[i]).length = H := hr.2 _ (List.getElem_mem _)
  have hl' : (g'[i]).length = H := hr'.2 _ (List.getElem_mem _)
  apply List.ext_getElem (by rw [hl, hl'])
  intro j hj hj'
  have := h i j (by have := hr.1; omega) (by omega)
  rwa [live_eq_getElem g i j hi hj, live_eq_getElem g' i j hi' hj'] at this

theorem gridOf_congr (W H : Nat) (f g : Int → Int → Bool)
    (h : ∀ x < W, ∀ y < H, f (x : Nat) (y : Nat) = g x y) : gridOf W H f = gridOf W H g := by
  unfold gridOf
  apply List.map_congr_left
  intro x hx
  apply List.map_congr_left
  intro y hy
  exact h x (List.mem_range.1 hx) y (List.mem_range.1 hy)

/-- One generation step on a grid given by a cell function. -/
theorem generation_gridOf (rule : Rule) (W H : Nat) (f : Int → Int → Bool) :
    generation rule W H (gridOf W H f) =
      some ⟨gridOf W H f, gridOf W H (nextFn rule W H f)⟩ := by
  obtain ⟨t, ht, hr, hv⟩ := generation_spec rule (gridOf W H f) W H (Rect_gridOf W H f)
  rw [ht]
  have e : t = gridOf W H (nextFn rule W H f) := by
    apply grid_ext t _ W H hr (Rect_gridOf W H _)
    intro x y hx hy
    obtain ⟨c, hc, hl⟩ := hv x y (by omega) (by omega) (by omega) (by omega)
    have hc' := Count_eq_some_moduloCount (gridOf W H f) W H (Rect_gridOf W H f)
      (by omega) (by omega) x y (by omega) (by omega) (by omega) (by omega)
    rw [hc'] at hc
    have hc'' : c = countFn W H f x y := by
      rw [← Option.some.inj hc, moduloCount_gridOf W H (by omega) (by omega)]
    rw [hl, live_gridOf_natCast W H f x y hx hy, live_gridOf_natCast W H _ x y hx hy, hc'']
    rfl
  rw [e]

/-- One generation step on a grid given by a cell function, with the next cell
function given in closed form. -/
theorem generation_gridOf_of (rule : Rule) (W H : Nat) (f g : Int → Int → Bool)
    (h : ∀ x < W, ∀ y < H, nextFn rule W H f (x : Nat) (y : Nat) = g x y) :
    generation rule W H (gridOf W H f) = some ⟨gridOf W H f, gridOf W H g⟩ := by
  rw [generation_gridOf, gridOf_congr W H _ g h]

theorem liveIn_outside_box (L : List (Int × Int)) (lo hi : Int)
    (hL : L.all (inBox lo hi) = true) (a b : Int)
    (h : ¬ (lo ≤ a ∧ a ≤ hi ∧ lo ≤ b ∧ b ≤ hi)) : liveIn L a b = false := by
  unfold liveIn
  rw [List.any_eq_false]
  intro p hp hpa
  have hb := List.all_eq_true.1 hL p hp
  simp only [inBox, decide_eq_true_eq] at hb
  simp only [Bool.and_eq_true, beq_iff_eq] at hpa
  apply h
  rw [← hpa.1, ← hpa.2]
  exact hb

/-- The modulo wrap of a neighbour index: the index itself, or one of the two
wraps at the edges. -/
theorem wrap_near (W : Nat) (x d : Int) (hx1 : 0 ≤ x) (hx2 : x < W)
    (hd1 : -1 ≤ d) (hd2 : d ≤ 1) :
    (x + d + W) % W = x + d ∨ ((x + d + W) % W = W - 1 ∧ x = 0) ∨
      ((x + d + W) % W = 0 ∧ x = W - 1) := by
  obtain ⟨i, hi, -, hm⟩ := force_eq_emod W (by omega) (x + d) (by omega) (by omega)
  by_cases hneg : x + d < 0
  · right; left
    have e : x + d = -1 := by omega
    rw [e]
    refine ⟨?_, by omega⟩
    rw [Int.emod_eq_of_lt (by omega) (by omega)]; omega
  · by_cases hlt : x + d < W
    · left
      rw [Int.add_emod_self, Int.emod_eq_of_lt (by omega) hlt]
    · right; right
      have e : x + d = W := by omega
      rw [e]
      refine ⟨by simp, by omega⟩

theorem wrap_far (W : Nat) (lo hi : Int) (h1 : 1 ≤ lo) (h2 : hi + 1 < W) (x d : Int)
    (hx1 : 0 ≤ x) (hx2 : x < W) (hd1 : -1 ≤ d) (hd2 : d ≤ 1)
    (hfar : x < lo - 1 ∨ hi + 1 < x) :
    ¬ (lo ≤ (x + d + W) % W ∧ (x + d + W) % W ≤ hi) := by
  rcases wrap_near W x d hx1 hx2 hd1 hd2 with h | ⟨h, h0⟩ | ⟨h, h0⟩ <;> rw [h] <;> omega

/-- A cell with no live cell within distance one has neighbour sum 0 and is
dead. -/
theorem countFn_far (W H : Nat) (L : List (Int × Int)) (lo hi : Int)
    (h1 : 1 ≤ lo) (h2 : hi + 1 < W) (h3 : hi + 1 < H)
    (hL : L.all (inBox lo hi) = true) (x y : Int)
    (hx1 : 0 ≤ x) (hx2 : x < W) (hy1 : 0 ≤ y) (hy2 : y < H)
    (hfar : ¬ (lo - 1 ≤ x ∧ x ≤ hi + 1 ∧ lo - 1 ≤ y ∧ y ≤ hi + 1)) :
    countFn W H (liveIn L) x y = 0 ∧ liveIn L x y = false := by
  have key : ∀ d e : Int, -1 ≤ d → d ≤ 1 → -1 ≤ e → e ≤ 1 →
      liveIn L ((x + d + W) % W) ((y + e + H) % H) = false := by
    intro d e hd1 hd2 he1 he2
    apply liveIn_outside_box L lo hi hL
    by_cases hxf : x < lo - 1 ∨ hi + 1 < x
    · have := wrap_far W lo hi h1 h2 x d hx1 hx2 hd1 hd2 hxf
      intro hc; exact this ⟨hc.1, hc.2.1⟩
    · have hyf : y < lo - 1 ∨ hi + 1 < y := by omega
      have := wrap_far H lo hi h1 h3 y e hy1 hy2 he1 he2 hyf
      intro hc; exact this ⟨hc.2.2.1, hc.2.2.2⟩
  refine ⟨?_, liveIn_outside_box L lo hi hL x y (by omega)⟩
  simp only [countFn, List.map, List.sum_cons, List.sum_nil]
  rw [key (-1) (-1) (by omega) (by omega) (by omega) (by omega),
    key 0 (-1) (by omega) (by omega) (by omega) (by omega),
    key 1 (-1) (by omega) (by omega) (by omega) (by omega),
    key (-1) 0 (by omega) (by omega) (by omega) (by omega),
    key 1 0 (by omega) (by omega) (by omega) (by omega),
    key (-1) 1 (by omega) (by omega) (by omega) (by omega),
    key 0 1 (by omega) (by omega) (by omega) (by omega),
    key 1 1 (by omega) (by omega) (by omega) (by omega)]
  rfl

/-- One generation step on a grid whose live cells all lie in a square away
from the edges: it is enough to compute the cells of the square grown by one. -/
theorem generation_gridOf_box (rule : Rule) (W H : Nat) (L L' : List (Int × Int))
    (lo hi : Int) (n : Nat) (h1 : 1 ≤ lo) (h2 : hi + 1 < W) (h3 : hi + 1 < H)
    (hn : hi + 1 < lo - 1 + n)
    (hdead : rule false 0 = false)
    (hL : L.all (inBox lo hi) = true) (hL' : L'.all (inBox (lo - 1) (hi + 1)) = true)
    (hbox : ∀ i < n, ∀ j < n,
      nextFn rule W H (liveIn L) (lo - 1 + (i : Nat)) (lo - 1 + (j : Nat)) =
        liveIn L' (lo - 1 + i) (lo - 1 + j)) :
    generation rule W H (gridOf W H (liveIn L)) =
      some ⟨gridOf W H (liveIn L), gridOf W H (liveIn L')⟩ := by
  apply generation_gridOf_of
  intro x hx y hy
  by_cases hin : lo - 1 ≤ (x : Int) ∧ (x : Int) ≤ hi + 1 ∧ lo - 1 ≤ (y : Int) ∧ (y : Int) ≤ hi + 1
  · have := hbox ((x : Int) - (lo - 1)).toNat (by omega) ((y : Int) - (lo - 1)).toNat (by omega)
    have ex : lo - 1 + ((((x : Int) - (lo - 1)).toNat : Nat) : Int) = x := by omega
    have ey : lo - 1 + ((((y : Int) - (lo - 1)).toNat : Nat) : Int) = y := by omega
    rw [ex, ey] at this
    exact this
  · obtain ⟨hc, hl⟩ := countFn_far W H L lo hi h1 h2 h3 hL x y (by omega) (by omega)
      (by omega) (by omega) hin
    rw [liveIn_outside_box L' (lo - 1) (hi + 1) hL' x y hin]
    unfold nextFn
    rw [hc, hl, hdead]

theorem generations_succ (rule : Rule) (W H : Int) (n : Nat) (g c t : Grid)
    (h : generation rule W H g = some ⟨c, t⟩) :
    generations rule W H (n + 1) g = generations rule W H n t := by
  simp only [generations, h]

/-! ## The glider (C6) -/

theorem AddGlider_dead40 : AddGlider dead40 10 10 = .done (gridOf 40 40 (liveIn glider0)) := by
  decide!

theorem glider_generation_1 :
    generation conway 40 40 (gridOf 40 40 (liveIn glider0)) =
      some ⟨gridOf 40 40 (liveIn glider0), gridOf 40 40 (liveIn glider1)⟩ := by
  have h := generation_gridOf_box conway 40 40 glider0 glider1 11 14 6 (by decide) (by decide)
    (by decide) (by decide) (by decide) (by decide) (by decide) (by decide!)
  simp only [Nat.cast_ofNat] at h
  exact h

theorem glider_generation_2 :
    generation conway 40 40 (gridOf 40 40 (liveIn glider1)) =
      some ⟨gridOf 40 40 (liveIn glider1), gridOf 40 40 (liveIn glider2)⟩ := by
  have h := generation_gridOf_box conway 40 40 glider1 glider2 11 14 6 (by decide) (by decide)
    (by decide) (by decide) (by decide) (by decide) (by decide) (by decide!)
  simp only [Nat.cast_ofNat] at h
  exact h

theorem glider_generation_3 :
    generation conway 40 40 (gridOf 40 40 (liveIn glider2)) =
      some ⟨gridOf 40 40 (liveIn glider2), gridOf 40 40 (liveIn glider3)⟩ := by
  have h := generation_gridOf_box conway 40 40 glider2 glider3 11 14 6 (by decide) (by decide)
    (by decide) (by decide) (by decide) (by decide) (by decide) (by decide!)
  simp only [Nat.cast_ofNat] at h
  exact h

theorem glider_generation_4 :
    generation conway 40 40 (gridOf 40 40 (liveIn glider3)) =
      some ⟨gridOf 40 40 (liveIn glider3), gridOf 40 40 (liveIn glider4)⟩ := by
  have h := generation_gridOf_box conway 40 40 glider3 glider4 11 14 6 (by decide) (by decide)
    (by decide) (by decide) (by decide) (by decide) (by decide) (by decide!)
  simp only [Nat.cast_ofNat] at h
  exact h

/-- Four generations after the stamp the live cells are those of `glider4`. -/
theorem glider_four_generations :
    generations conway 40 40 4 (gridOf 40 40 (liveIn glider0)) =
      some (gridOf 40 40 (liveIn glider4)) :=
  (generations_succ conway 40 40 3 _ _ _ glider_generation_1).trans
    ((generations_succ conway 40 40 2 _ _ _ glider_generation_2).trans
      ((generations_succ conway 40 40 1 _ _ _ glider_generation_3).trans
        (generations_succ conway 40 40 0 _ _ _ glider_generation_4)))

theorem initRule_B3S23 : initRule (ascii "B3/S23") = some conway := by
  have h : (initRule (ascii "B3/S23")).isSome = true := by decide
  unfold conway
  cases hh : initRule (ascii "B3/S23") with
  | none => rw [hh] at h; cases h
  | some r => rfl

theorem live_gridOf_eq (W H : Nat) (f : Int → Int → Bool) (x y : Int) :
    live (gridOf W H f) x y = (decide (0 ≤ x ∧ x < W ∧ 0 ≤ y ∧ y < H) && f x y) := by
  by_cases h : 0 ≤ x ∧ x < W ∧ 0 ≤ y ∧ y < H
  · rw [live_gridOf W H f x y h.1 h.2.1 h.2.2.1 h.2.2.2]
    simp [h]
  · rw [live_gridOf_outside W H f x y h]
    simp [h]

theorem glider4_is_glider0_shifted (a b : Int) :
    live (gridOf 40 40 (liveIn glider4)) (a - 1) (b - 1) =
      live (gridOf 40 40 (liveIn glider0)) a b := by
  rw [live_gridOf_eq, live_gridOf_eq, Bool.eq_iff_iff]
  simp only [liveIn, glider0, glider4, List.any_cons, List.any_nil, Bool.or_false,
    Bool.and_eq_true, Bool.or_eq_true, decide_eq_true_eq, beq_iff_eq, Nat.cast_ofNat]
  omega

/-- C6 as stated fails: `(12,12)` is live right after `AddGlider(10,10)`, but
`(13,13)`, the same cell moved by `(+1,+1)`, is dead after four generations. -/
theorem glider_does_not_move_by_plus_one :
    ∃ stamped after : Grid,
      AddGlider dead40 10 10 = .done stamped ∧
      generations conway 40 40 4 stamped = some after ∧
      live stamped 12 12 = true ∧ live after (12 + 1) (12 + 1) = false := by
  refine ⟨_, _, AddGlider_dead40, glider_four_generations, ?_, ?_⟩
  · rw [live_gridOf_eq]; decide
  · rw [live_gridOf_eq]; decide

/-! ## Stamping (C7) -/

theorem andThen_done {σ : Type} (o : Outcome σ) : (o.andThen fun s => .done s) = o := by
  cases o <;> rfl

theorem AddGlider_eq_stampAll (cells : Grid) (x y : Int) :
    AddGlider cells x y = stampAll cells (gliderCells x y) := by
  simp only [AddGlider, stampAll, gliderCells, andThen_done]

theorem AddAcorn_eq_stampAll (cells : Grid) (x y : Int) :
    AddAcorn cells x y = stampAll cells (acornCells x y) := by
  simp only [AddAcorn, stampAll, acornCells, andThen_done]

theorem AddDiehard_eq_stampAll (cells : Grid) (x y : Int) :
    AddDiehard cells x y = stampAll cells (diehardCells x y) := by
  simp only [AddDiehard, stampAll, diehardCells, andThen_done]

theorem assign_eq_none {α : Type} (s : List α) (i : Int) (v : α)
    (h : i < 0 ∨ (s.length : Int) ≤ i) : assign s i v = none := by
  unfold assign
  by_cases hi : i < 0
  · rw [if_pos hi]
  · rw [if_neg hi, if_neg (by omega)]

/-- A write outside a rectangular grid panics. -/
theorem setCell_outside (g : Grid) (W H : Nat) (hr : Rect g W H) (x y : Int) (v : Bool)
    (h : inGrid W H (x, y) = false) : setCell g x y v = none := by
  unfold setCell
  cases hx : index g x with
  | none => rfl
  | some l =>
    simp only []
    obtain ⟨hx0, hget⟩ := (index_eq_some_iff g x l).1 hx
    have hmem : l ∈ g := List.getElem?_mem hget
    have hlen : l.length = H := hr.2 l hmem
    obtain ⟨hlt, -⟩ := List.getElem?_eq_some.1 hget
    have hW := hr.1
    have hy : y < 0 ∨ (l.length : Int) ≤ y := by
      simp only [inGrid, decide_eq_false_iff_not] at h
      omega
    rw [assign_eq_none l y v hy]

/-- A write `cells[x][y] = true` inside a rectangular grid completes, keeps the
shape and adds `(x, y)` to the live cells. -/
theorem stamp_inside (g : Grid) (W H : Nat) (hr : Rect g W H) (x y : Int)
    (h : inGrid W H (x, y) = true) :
    ∃ g', stamp g x y = .done g' ∧ Rect g' W H ∧
      ∀ a b : Int, live g' a b = (live g a b || decide ((a, b) = (x, y))) := by
  simp only [inGrid, decide_eq_true_eq] at h
  obtain ⟨i, rfl⟩ : ∃ i : Nat, x = i := ⟨x.toNat, by omega⟩
  obtain ⟨j, rfl⟩ : ∃ j : Nat, y = j := ⟨y.toNat, by omega⟩
  obtain ⟨g', hg', hr', hv, hf⟩ := setCell_spec g W H hr i j (by omega) (by omega) true
  refine ⟨g', by simp [stamp, hg'], hr', ?_⟩
  intro a b
  by_cases e : a = i ∧ b = j
  · obtain ⟨rfl, rfl⟩ := e
    simp [hv]
  · rw [hf a b e]
    have : ¬ ((a, b) = ((i : Int), (j : Int))) := by
      intro h'; exact e ⟨congrArg Prod.fst h', congrArg Prod.snd h'⟩
    simp [this]

/-- The writes of a list of cells on a rectangular grid: they complete when all
cells are inside, and panic at the first cell outside; either way the grid
reached is the grid at the start plus the cells written before that point. -/
theorem stampAll_spec (W H : Nat) :
    ∀ (L : List (Int × Int)) (g : Grid), Rect g W H →
      ∃ g', stampAll g L = (if L.all (inGrid W H) then .done g' else .panic g') ∧
        Rect g' W H ∧
        ∀ a b : Int, live g' a b =
          (live g a b || decide ((a, b) ∈ L.takeWhile (inGrid W H))) := by
  intro L
  induction L with
  | nil => intro g hr; exact ⟨g, by simp [stampAll], hr, by simp⟩
  | cons p ps ih =>
    intro g hr
    by_cases hp : inGrid W H p = true
    · obtain ⟨g1, h1, hr1, hl1⟩ := stamp_inside g W H hr p.1 p.2 hp
      obtain ⟨g', h', hr', hl'⟩ := ih g1 hr1
      refine ⟨g', ?_, hr', ?_⟩
      · simp only [stampAll, h1, Outcome.andThen, h', List.all_cons, hp, Bool.true_and]
      · intro a b
        rw [hl' a b, hl1 a b, List.takeWhile_cons, if_pos hp]
        by_cases e : (a, b) = p
        · simp [e]
        · simp [e]
    · have hp' : inGrid W H p = false := by simpa using hp
      refine ⟨g, ?_, hr, ?_⟩
      · have hs : stamp g p.1 p.2 = .panic g := by
          simp [stamp, setCell_outside g W H hr p.1 p.2 true hp']
        simp [stampAll, hs, Outcome.andThen, hp']
      · intro a b
        simp [List.takeWhile_cons, hp']

theorem all_inGrid_eq_false (W H : Nat) (L : List (Int × Int))
    (h : ∃ p ∈ L, inGrid W H p = false) : L.all (inGrid W H) = false := by
  obtain ⟨p, hp, hf⟩ := h
  rw [Bool.eq_false_iff]
  intro hall
  rw [List.all_eq_true] at hall
  rw [hall p hp] at hf
  cases hf

/-- A stamp with a cell outside the grid panics, with the grid at the start plus
the cells written before the first one outside. -/
theorem stampAll_panics (W H : Nat) (L : List (Int × Int)) (g : Grid) (hr : Rect g W H)
    (h : ∃ p ∈ L, inGrid W H p = false) :
    ∃ g', stampAll g L = .panic g' ∧
      ∀ a b : Int, live g' a b =
        (live g a b || decide ((a, b) ∈ L.takeWhile (inGrid W H))) := by
  obtain ⟨g', h', -, hl⟩ := stampAll_spec W H L g hr
  rw [all_inGrid_eq_false W H L h] at h'
  exact ⟨g', by simpa using h', hl⟩

/-- C7, as the code has it: on a `W`x`H` grid, for every anchor for which a
cell written by `AddGlider`, `AddAcorn` or `AddDiehard` lies outside the grid,
the stamp panics, and the grid at that point is the grid before the call plus
the cells written, in source order, before the first one outside: the writes
already made stay. -/
theorem stamp_panics_keeping_earlier_writes (cells : Grid) (W H : Nat)
    (hr : Rect cells W H) (x y : Int) :
    ((∃ p ∈ gliderCells x y, inGrid W H p = false) →
      ∃ g, AddGlider cells x y = .panic g ∧ ∀ a b : Int, live g a b =
        (live cells a b || decide ((a, b) ∈ (gliderCells x y).takeWhile (inGrid W H)))) ∧
    ((∃ p ∈ acornCells x y, inGrid W H p = false) →
      ∃ g, AddAcorn cells x y = .panic g ∧ ∀ a b : Int, live g a b =
        (live cells a b || decide ((a, b) ∈ (acornCells x y).takeWhile (inGrid W H)))) ∧
    ((∃ p ∈ diehardCells x y, inGrid W H p = false) →
      ∃ g, AddDiehard cells x y = .panic g ∧ ∀ a b : Int, live g a b =
        (live cells a b || decide ((a, b) ∈ (diehardCells x y).takeWhile (inGrid W H)))) := by
  refine ⟨fun h => ?_, fun h => ?_, fun h => ?_⟩
  · rw [AddGlider_eq_stampAll]; exact stampAll_panics W H _ cells hr h
  · rw [AddAcorn_eq_stampAll]; exact stampAll_panics W H _ cells hr h
  · rw [AddDiehard_eq_stampAll]; exact stampAll_panics W H _ cells hr h

/-- The amended C7 for `AddGlider(36, 0)` on the all-dead 40x40 world: the
fourth write, to column 40, is the first one outside. -/
theorem stamp_panics_keeping_earlier_writes_witness :
    Rect dead40 40 40 ∧ (∃ p ∈ gliderCells 36 0, inGrid 40 40 p = false) ∧
      (gliderCells 36 0).takeWhile (inGrid 40 40) = [(38, 2), (38, 3), (39, 2)] ∧
      ∃ g, AddGlider dead40 36 0 = .panic g ∧ ∀ a b : Int, live g a b =
        (live dead40 a b || decide ((a, b) ∈ (gliderCells 36 0).takeWhile (inGrid 40 40))) :=
  ⟨Rect_replicate 40 40 false, by decide, by decide,
    (stamp_panics_keeping_earlier_writes dead40 40 40 (Rect_replicate 40 40 false) 36 0).1
      (by decide)⟩

/-- C7 as stated fails: `AddGlider(36, 0)` on the all-dead 40x40 world panics at
its fourth write, `cells[40][2]`, and by then `(38,2)`, `(38,3)` and `(39,2)`
have been set: the grid at the point of failure is not the grid before the
call. -/
theorem AddGlider_panic_leaves_partial_stamp :
    AddGlider dead40 36 0 = .panic (gridOf 40 40 (liveIn [(38, 2), (38, 3), (39, 2)])) ∧
      live dead40 38 2 = false ∧
      live (gridOf 40 40 (liveIn [(38, 2), (38, 3), (39, 2)])) 38 2 = true := by
  decide!


/-! ## Commands and the background loop (C8, C9, C10) -/

/-- A toggle inside a rectangular grid completes, keeps the shape, negates that
cell and changes no other. -/
theorem ToggleCell_inside (g : Grid) (W H : Nat) (hr : Rect g W H) (x y : Nat)
    (hx : x < W) (hy : y < H) :
    ∃ g', ToggleCell g x y = .done g' ∧ Rect g' W H ∧ live g' x y = (!live g x y) ∧
      ∀ x' y' : Int, ¬ (x' = x ∧ y' = y) → live g' x' y' = live g x' y' := by
  have hxL : x < g.length := by have := hr.1; omega
  have hline : (g[x]).length = H := hr.2 _ (List.getElem_mem _)
  have hyL : y < (g[x]).length := by omega
  obtain ⟨g', hg', hr', hv, hf⟩ := setCell_spec g W H hr x y hx hy (!(g[x])[y])
  refine ⟨g', ?_, hr', ?_, hf⟩
  · unfold ToggleCell
    rw [index_natCast, List.getElem?_eq_getElem hxL]
    simp only []
    rw [index_natCast, List.getElem?_eq_getElem hyL]
    simp only []
    rw [hg']
  · rw [hv, live_eq_getElem g x y hxL hyL]

/-- A command whose cells all lie in the grid completes and keeps the shape. -/
theorem Cmd.run_done (g : Grid) (W H : Nat) (hr : Rect g W H) (c : Cmd)
    (h : c.inGrid W H = true) : ∃ g', c.run g = .done g' ∧ Rect g' W H := by
  cases c with
  | toggle x y =>
    simp [Cmd.inGrid, Cmd.cells, Life.inGrid] at h
    obtain ⟨i, rfl⟩ : ∃ i : Nat, x = i := ⟨x.toNat, by omega⟩
    obtain ⟨j, rfl⟩ : ∃ j : Nat, y = j := ⟨y.toNat, by omega⟩
    obtain ⟨g', hg', hr', -, -⟩ := ToggleCell_inside g W H hr i j (by omega) (by omega)
    exact ⟨g', hg', hr'⟩
  | acorn x y =>
    obtain ⟨g', hg', hr', -⟩ := stampAll_spec W H (acornCells x y) g hr
    simp only [Cmd.inGrid, Cmd.cells] at h
    rw [h] at hg'
    exact ⟨g', by simpa [Cmd.run, AddAcorn_eq_stampAll] using hg', hr'⟩
  | glider x y =>
    obtain ⟨g', hg', hr', -⟩ := stampAll_spec W H (gliderCells x y) g hr
    simp only [Cmd.inGrid, Cmd.cells] at h
    rw [h] at hg'
    exact ⟨g', by simpa [Cmd.run, AddGlider_eq_stampAll] using hg', hr'⟩

theorem generation_of_wellFormed (rule : Rule) (w : World) (W H : Nat)
    (hw : WellFormed w W H) :
    ∃ next, generation rule w.Width w.Height w.Cells = some ⟨w.Cells, next⟩ ∧
      Rect next W H := by
  obtain ⟨hW, hH, hr⟩ := hw
  obtain ⟨t, ht, hrt, -⟩ := generation_spec rule w.Cells W H hr
  exact ⟨t, by rw [hW, hH]; exact ht, hrt⟩

/-- One iteration on a well-formed world with an empty channel. -/
theorem RefreshCellsBody_empty (rule : Rule) (w : World) (W H : Nat)
    (hw : WellFormed w W H) (hch : w.ch = []) :
    ∃ next, generation rule w.Width w.Height w.Cells = some ⟨w.Cells, next⟩ ∧
      Rect next W H ∧ RefreshCellsBody rule w = .done { w with Cells := next } := by
  obtain ⟨next, hg, hr⟩ := generation_of_wellFormed rule w W H hw
  refine ⟨next, hg, hr, ?_⟩
  unfold RefreshCellsBody
  rw [hg]
  simp only [selectCmd, hch, Outcome.andThen]

/-- One iteration on a well-formed world whose channel holds command `c` first:
`c` is received and called, and what becomes current is the plain next
generation of the grid the iteration started with. -/
theorem RefreshCellsBody_cons (rule : Rule) (w : World) (W H : Nat)
    (hw : WellFormed w W H) (c : Cmd) (rest : List Cmd) (hch : w.ch = c :: rest)
    (hc : c.inGrid W H = true) :
    ∃ next, generation rule w.Width w.Height w.Cells = some ⟨w.Cells, next⟩ ∧
      Rect next W H ∧
      RefreshCellsBody rule w =
        .done { w with Cells := next, ch := rest, called := w.called ++ [c] } := by
  obtain ⟨next, hg, hr⟩ := generation_of_wellFormed rule w W H hw
  obtain ⟨g', hg', -⟩ := Cmd.run_done w.Cells W H hw.2.2 c hc
  refine ⟨next, hg, hr, ?_⟩
  unfold RefreshCellsBody
  rw [hg]
  simp only [selectCmd, hch, call, hg', Outcome.andThen]

theorem RefreshCells_succ (rule : Rule) (n : Nat) (w : World)
    (hrun : w.Running = true) (hp : w.Paused = false) :
    RefreshCells rule (n + 1) w = (RefreshCellsBody rule w).andThen (RefreshCells rule n) := by
  rw [RefreshCells, if_pos (by simp [hrun, hp])]

/-- The loop on a well-formed, running world whose queued commands all lie in
the grid: `n` iterations complete, take the first `n` commands off the channel
and call them in that order. -/
theorem RefreshCells_spec (rule : Rule) (W H : Nat) :
    ∀ (n : Nat) (w : World), WellFormed w W H → w.Running = true → w.Paused = false →
      (∀ c ∈ w.ch, c.inGrid W H = true) →
      ∃ w', RefreshCells rule n w = .done w' ∧ WellFormed w' W H ∧
        w'.ch = w.ch.drop n ∧ w'.called = w.called ++ w.ch.take n := by
  intro n
  induction n with
  | zero =>
    intro w hw _ _ _
    exact ⟨w, rfl, hw, by simp, by simp⟩
  | succ n ih =>
    intro w hw hrun hp hall
    cases hch : w.ch with
    | nil =>
      obtain ⟨next, -, hr, hb⟩ := RefreshCellsBody_empty rule w W H hw hch
      obtain ⟨w', h', hw', hc', hcl'⟩ := ih { w with Cells := next }
        ⟨hw.1, hw.2.1, hr⟩ hrun hp (by simp [hch])
      refine ⟨w', ?_, hw', ?_, ?_⟩
      · rw [RefreshCells_succ rule n w hrun hp, hb]
        exact h'
      · simpa [hch] using hc'
      · simpa [hch] using hcl'
    | cons c rest =>
      have hc : c.inGrid W H = true := hall c (by simp [hch])
      obtain ⟨next, -, hr, hb⟩ := RefreshCellsBody_cons rule w W H hw c rest hch hc
      obtain ⟨w', h', hw', hc', hcl'⟩ :=
        ih { w with Cells := next, ch := rest, called := w.called ++ [c] }
          ⟨hw.1, hw.2.1, hr⟩ hrun hp (fun d hd => hall d (by simp [hch]; exact Or.inr hd))
      refine ⟨w', ?_, hw', ?_, ?_⟩
      · rw [RefreshCells_succ rule n w hrun hp, hb]
        exact h'
      · simpa using hc'
      · simpa using hcl'


theorem queue_running (w : World) (f : Cmd) (hrun : w.Running = true)
    (hp : w.Paused = false) (hlen : w.ch.length < 10) :
    queue w f = .done { w with ch := w.ch ++ [f] } := by
  simp [queue, hrun, hp, hlen]

/-- C8 at a failing input: the 10x10 world right after `Setup`, unpaused, with
the command `ToggleCell(0,0)` in the channel.  The iteration receives and calls
the command, yet the grid it publishes is the plain next generation `next10`,
in which `(0,0)` is dead; the command applied to the next generation would have
`(0,0)` alive. -/
theorem RefreshCellsBody_drops_queued_toggle :
    generation conway 10 10 clickWorld.Cells = some ⟨clickWorld.Cells, next10⟩ ∧
      RefreshCellsBody conway clickWorld =
        .done { clickWorld with Cells := next10, ch := [], called := [Cmd.toggle 0 0] } ∧
      live next10 0 0 = false ∧
      (ToggleCell next10 0 0).state ≠ next10 ∧
      live (ToggleCell next10 0 0).state 0 0 = true := by
  decide!

/-- C10: on a paused engine `queue(ch, f)` calls `f` on the current grid before
it returns and leaves the channel as it was; on a running engine whose channel
has room it leaves the current grid as it was and appends `f` to the channel. -/
theorem queue_dispatch :
    (∀ (w : World) (f : Cmd) (g : Grid), w.Running = true → w.Paused = true →
      f.run w.Cells = .done g →
        queue w f = .done { w with Cells := g, called := w.called ++ [f] }) ∧
    (∀ (w : World) (f : Cmd), w.Running = true → w.Paused = false → w.ch.length < 10 →
        queue w f = .done { w with ch := w.ch ++ [f] }) := by
  refine ⟨?_, ?_⟩
  · intro w f g hrun hp hf
    simp [queue, hrun, hp, call, hf]
  · intro w f hrun hp hlen
    exact queue_running w f hrun hp hlen

/-- C10 on the paused 10x10 world `Setup` leaves, with the command
`ToggleCell(0,0)`, and on the same world unpaused. -/
theorem queue_dispatch_witness :
    (∃ g, ToggleCell (Setup roomy 10 10).state.Cells 0 0 = .done g ∧ live g 0 0 = true ∧
      queue (Setup roomy 10 10).state (Cmd.toggle 0 0) =
        .done { (Setup roomy 10 10).state with Cells := g, called := [Cmd.toggle 0 0] }) ∧
      queue clickWorld (Cmd.toggle 1 1) =
        .done { clickWorld with ch := [Cmd.toggle 0 0, Cmd.toggle 1 1] } :=
  ⟨⟨(ToggleCell (Setup roomy 10 10).state.Cells 0 0).state, by decide, by decide,
      queue_dispatch.1 (Setup roomy 10 10).state (Cmd.toggle 0 0) _ (by decide) (by decide)
        (by decide)⟩,
    queue_dispatch.2 clickWorld (Cmd.toggle 1 1) (by decide) (by decide) (by decide)⟩

/-! ## The wrap of `check` (C11, C17) -/

/-- Within one grid length of the grid, the wrap of `check` lands inside and is
the modulo wrap. -/
theorem force_within (n : Nat) (hn : 1 ≤ n) (x : Int) (h1 : -(n : Int) ≤ x) (h2 : x ≤ n) :
    0 ≤ force n x ∧ force n x < n ∧ force n x = (x + n) % n := by
  by_cases hneg : x < 0
  · have e : force n x = n + x := by unfold force; rw [if_neg (by omega)]
    refine ⟨by omega, by omega, ?_⟩
    rw [e, Int.emod_eq_of_lt (by omega) (by omega)]; omega
  · by_cases hlt : x < n
    · have e : force n x = x := by unfold force; rw [if_pos (by omega), if_pos (by omega)]
      refine ⟨by omega, by omega, ?_⟩
      rw [e, Int.add_emod_self, Int.emod_eq_of_lt (by omega) hlt]
    · have hx : x = n := by omega
      subst hx
      have e : force n (n : Int) = 0 := by
        unfold force; rw [if_pos (by omega), if_neg (by omega)]; omega
      refine ⟨by omega, by omega, ?_⟩
      rw [e]; simp

/-- Further out than one grid length, the wrap of `check` gives a negative index. -/
theorem force_beyond (n : Nat) (x : Int) (h : x < -(n : Int) ∨ (n : Int) < x) :
    force n x < 0 := by
  unfold force
  by_cases hneg : x < 0
  · rw [if_neg (by omega)]; omega
  · rw [if_pos (by omega), if_neg (by omega)]; omega

theorem index_isSome_iff {α : Type} (s : List α) (i : Int) :
    (index s i).isSome = true ↔ 0 ≤ i ∧ i < s.length := by
  have h := index_eq_none_iff s i
  cases hi : index s i with
  | none =>
    have := h.1 hi
    simp only [Option.isSome_none, Bool.false_eq_true, false_iff]
    omega
  | some a =>
    have : ¬ (i < 0 ∨ (s.length : Int) ≤ i) := fun hc => by
      rw [h.2 hc] at hi; cases hi
    simp only [Option.isSome_some, true_iff]
    omega

/-- On a rectangular grid `check(x, y)` reads a cell exactly when both arguments
are within one grid length of the grid. -/
theorem check_isSome_iff (cells : Grid) (W H : Nat) (hr : Rect cells W H)
    (hW : 1 ≤ W) (hH : 1 ≤ H) (x y : Int) :
    (check cells x y).isSome = true ↔
      (-(W : Int) ≤ x ∧ x ≤ W ∧ -(H : Int) ≤ y ∧ y ≤ H) := by
  obtain ⟨hlen, hcol⟩ := hr
  unfold check
  rw [hlen]
  by_cases hx : -(W : Int) ≤ x ∧ x ≤ W
  · obtain ⟨f0, fW, -⟩ := force_within W hW x hx.1 hx.2
    have hsome : (index cells (force W x)).isSome = true :=
      (index_isSome_iff cells _).2 ⟨f0, by omega⟩
    cases hl : index cells (force W x) with
    | none => rw [hl] at hsome; cases hsome
    | some l =>
      simp only []
      have hmem : l ∈ cells := List.getElem?_mem ((index_eq_some_iff cells _ l).1 hl).2
      have hlH : l.length = H := hcol l hmem
      rw [hlH]
      by_cases hy : -(H : Int) ≤ y ∧ y ≤ H
      · obtain ⟨g0, gH, -⟩ := force_within H hH y hy.1 hy.2
        have hs2 : (index l (force H y)).isSome = true :=
          (index_isSome_iff l _).2 ⟨g0, by omega⟩
        cases hc : index l (force H y) with
        | none => rw [hc] at hs2; cases hs2
        | some c =>
          simp only [Option.isSome_some, true_iff]
          exact ⟨hx.1, hx.2, hy.1, hy.2⟩
      · have hneg := force_beyond H y (by omega)
        have hn2 : index l (force H y) = none :=
          (index_eq_none_iff l _).2 (Or.inl hneg)
        rw [hn2]
        simp only [Option.isSome_none, Bool.false_eq_true, false_iff]
        intro hc; exact hy ⟨hc.2.2.1, hc.2.2.2⟩
  · have hneg := force_beyond W x (by omega)
    have hn : index cells (force W x) = none :=
      (index_eq_none_iff cells _).2 (Or.inl hneg)
    rw [hn]
    simp only [Option.isSome_none, Bool.false_eq_true, false_iff]
    intro hc; exact hx ⟨hc.1, hc.2.1⟩

/-- C11, as the code has it: the wrap of `check` is the modulo wrap on every
argument within one grid length of the grid, in particular on the arguments
`-1 .. len` that `Count` passes for an in-range cell, so `Count(x, y)` is the
modulo-wrap neighbour sum for every in-range cell, edge cells included; the
two wraps part only further out, where `check` panics (on 5 columns, `x = 6`
is adjusted to `-1`, the modulo wrap gives 1). -/
theorem check_wrap_is_modulo_within_one_length :
    (∀ (n : Nat) (x : Int), 1 ≤ n → -(n : Int) ≤ x → x ≤ n → force n x = (x + n) % n) ∧
    (∀ (cells : Grid) (W H : Nat), Rect cells W H → 1 ≤ W → 1 ≤ H →
      ∀ x y : Int, 0 ≤ x → x < W → 0 ≤ y → y < H →
        Count cells x y = some (moduloCount cells W H x y)) ∧
    (force 5 6 = -1 ∧ ((6 : Int) + 5) % 5 = 1 ∧ check corner5 6 0 = none) :=
  ⟨fun n x hn h1 h2 => (force_within n hn x h1 h2).2.2,
    fun cells W H hr hW hH x y hx1 hx2 hy1 hy2 =>
      Count_eq_some_moduloCount cells W H hr hW hH x y hx1 hx2 hy1 hy2,
    by decide⟩

/-- The amended C11 at the 5x5 example grid: the wrap at `x = 5` and the count
at the corner cell `(4,4)`. -/
theorem check_wrap_is_modulo_within_one_length_witness :
    force 5 5 = ((5 : Int) + 5) % 5 ∧
      Count corner5 4 4 = some (moduloCount corner5 5 5 4 4) :=
  ⟨check_wrap_is_modulo_within_one_length.1 5 5 (by decide) (by decide) (by decide),
    check_wrap_is_modulo_within_one_length.2.1 corner5 5 5 (by decide) (by decide)
      (by decide) 4 4 (by decide) (by decide) (by decide) (by decide)⟩

/-- C11 as stated fails: there is no rectangular grid with `W, H ≥ 1` and no
in-range cell at which `Count` differs from the modulo-wrap neighbour sum. -/
theorem no_cell_where_Count_differs_from_modulo :
    ¬ ∃ (cells : Grid) (W H : Nat) (x y : Int),
        Rect cells W H ∧ 1 ≤ W ∧ 1 ≤ H ∧ 0 ≤ x ∧ x < W ∧ 0 ≤ y ∧ y < H ∧
          Count cells x y ≠ some (moduloCount cells W H x y) := by
  rintro ⟨cells, W, H, x, y, hr, hW, hH, hx1, hx2, hy1, hy2, hne⟩
  exact hne (Count_eq_some_moduloCount cells W H hr hW hH x y hx1 hx2 hy1 hy2)

/-- C17: on a rectangular grid with `W ≥ 1` columns and `H ≥ 1` rows,
`check(x, y)` reads an in-range cell iff `-W ≤ x ≤ W` and `-H ≤ y ≤ H`; for an
argument outside that band the adjusted index is negative; hence for an
in-range cell all eight `check` calls of `Count` are in range and `Count`
returns. -/
theorem check_in_range_iff_within_one_length (cells : Grid) (W H : Nat)
    (hr : Rect cells W H) (hW : 1 ≤ W) (hH : 1 ≤ H) :
    (∀ x y : Int, (check cells x y).isSome = true ↔
      (-(W : Int) ≤ x ∧ x ≤ W ∧ -(H : Int) ≤ y ∧ y ≤ H)) ∧
    (∀ x : Int, ¬ (-(W : Int) ≤ x ∧ x ≤ W) → force W x < 0) ∧
    (∀ y : Int, ¬ (-(H : Int) ≤ y ∧ y ≤ H) → force H y < 0) ∧
    (∀ x y : Int, 0 ≤ x → x < W → 0 ≤ y → y < H →
      (∀ dx dy : Int, -1 ≤ dx → dx ≤ 1 → -1 ≤ dy → dy ≤ 1 →
        (check cells (x + dx) (y + dy)).isSome = true) ∧
      (Count cells x y).isSome = true) := by
  refine ⟨fun x y => check_isSome_iff cells W H hr hW hH x y,
    fun x hx => force_beyond W x (by omega), fun y hy => force_beyond H y (by omega), ?_⟩
  intro x y hx1 hx2 hy1 hy2
  refine ⟨?_, ?_⟩
  · intro dx dy h1 h2 h3 h4
    exact (check_isSome_iff cells W H hr hW hH _ _).2 ⟨by omega, by omega, by omega, by omega⟩
  · rw [Count_eq_some_moduloCount cells W H hr hW hH x y hx1 hx2 hy1 hy2]
    rfl

/-- C17 at the 5x5 example grid. -/
theorem check_in_range_iff_within_one_length_witness :
    (check corner5 5 (-5)).isSome = true ∧ (check corner5 6 0).isSome = false ∧
      (Count corner5 0 4).isSome = true :=
  ⟨(check_in_range_iff_within_one_length corner5 5 5 (by decide) (by decide)
      (by decide)).1 5 (-5) |>.2 (by decide),
    by decide,
    (check_in_range_iff_within_one_length corner5 5 5 (by decide) (by decide)
      (by decide)).2.2.2 0 4 (by decide) (by decide) (by decide) (by decide) |>.2⟩

/-! ## Stamp semantics and the pictures (C12, C13) -/

theorem count_set_true (l : List Bool) :
    ∀ (i : Nat) (h : i < l.length),
      (l.set i true).count true = l.count true + (if l[i] = true then 0 else 1) := by
  induction l with
  | nil => intro i h; simp at h
  | cons a l ih =>
    intro i h
    cases i with
    | zero => cases a <;> simp
    | succ i =>
      have hi : i < l.length := by simpa using h
      have := ih i hi
      simp only [List.set_cons_succ, List.count_cons, List.getElem_cons_succ, this]
      omega

theorem sum_map_set (f : List Bool → Nat) (g : Grid) :
    ∀ (i : Nat) (h : i < g.length) (r : List Bool),
      ((g.set i r).map f).sum + f g[i] = (g.map f).sum + f r := by
  induction g with
  | nil => intro i h; simp at h
  | cons a g ih =>
    intro i h r
    cases i with
    | zero => simp only [List.set_cons_zero, List.map_cons, List.sum_cons,
        List.getElem_cons_zero]; omega
    | succ i =>
      have hi : i < g.length := by simpa using h
      have := ih i hi r
      simp only [List.set_cons_succ, List.map_cons, List.sum_cons, List.getElem_cons_succ]
      omega

theorem setCell_eq_set (g : Grid) (W H : Nat) (hr : Rect g W H) (x y : Nat)
    (hy : y < H) (v : Bool) (hxL : x < g.length) :
    setCell g x y v = some (g.set x ((g[x]).set y v)) := by
  have hline : (g[x]).length = H := hr.2 _ (List.getElem_mem _)
  have hyL : y < (g[x]).length := by omega
  unfold setCell
  rw [index_natCast, List.getElem?_eq_getElem hxL]
  simp only []
  rw [assign_natCast _ _ _ hyL]
  simp only []
  rw [assign_natCast _ _ _ hxL]

/-- A write `cells[x][y] = true` inside the grid adds one live cell when the
cell was dead and none when it was alive. -/
theorem stamp_liveCount (g : Grid) (W H : Nat) (hr : Rect g W H) (x y : Int)
    (h : inGrid W H (x, y) = true) (g' : Grid) (hs : stamp g x y = .done g') :
    liveCount g' = liveCount g + (if live g x y = true then 0 else 1) := by
  simp only [inGrid, decide_eq_true_eq] at h
  obtain ⟨i, rfl⟩ : ∃ i : Nat, x = i := ⟨x.toNat, by omega⟩
  obtain ⟨j, rfl⟩ : ∃ j : Nat, y = j := ⟨y.toNat, by omega⟩
  have hxL : i < g.length := by have := hr.1; omega
  have hline : (g[i]).length = H := hr.2 _ (List.getElem_mem _)
  have hyL : j < (g[i]).length := by omega
  have he := setCell_eq_set g W H hr i j (by omega) true hxL
  have hg' : g' = g.set i ((g[i]).set j true) := by
    simp only [stamp, he] at hs
    exact (Outcome.done.inj hs).symm
  have h1 := sum_map_set (List.count true) g i hxL ((g[i]).set j true)
  have h2 := count_set_true (g[i]) j hyL
  rw [hg', live_eq_getElem g i j hxL hyL]
  unfold liveCount
  omega

theorem liveCount_replicate (W H : Nat) :
    liveCount (List.replicate W (List.replicate H false)) = 0 := by
  unfold liveCount
  rw [List.map_replicate, List.count_replicate]
  simp

theorem live_replicate (W H : Nat) (a b : Int) :
    live (List.replicate W (List.replicate H false)) a b = false := by
  by_cases ha : a < 0
  · exact live_of_neg_left _ _ _ ha
  by_cases hb : b < 0
  · exact live_of_neg_right _ _ _ hb
  obtain ⟨i, rfl⟩ : ∃ i : Nat, a = i := ⟨a.toNat, by omega⟩
  obtain ⟨j, rfl⟩ : ∃ j : Nat, b = j := ⟨b.toNat, by omega⟩
  rw [live_natCast]
  by_cases hi : i < W
  · by_cases hj : j < H
    · simp [List.getElem?_replicate, hi, hj]
    · simp [List.getElem?_replicate, hi, hj]
  · simp [List.getElem?_replicate, hi]

/-- Stamping a list of distinct cells, all inside the grid and all dead, adds
as many live cells as the list is long. -/
theorem stampAll_liveCount (W H : Nat) :
    ∀ (L : List (Int × Int)) (g : Grid), Rect g W H → L.all (inGrid W H) = true →
      L.Nodup → (∀ p ∈ L, live g p.1 p.2 = false) →
      ∃ g', stampAll g L = .done g' ∧ liveCount g' = liveCount g + L.length := by
  intro L
  induction L with
  | nil => intro g _ _ _ _; exact ⟨g, rfl, rfl⟩
  | cons p ps ih =>
    intro g hr hall hnd hdead
    simp only [List.all_cons, Bool.and_eq_true] at hall
    obtain ⟨g1, h1, hr1, hl1⟩ := stamp_inside g W H hr p.1 p.2 hall.1
    have hc1 := stamp_liveCount g W H hr p.1 p.2 hall.1 g1 h1
    rw [hdead p (by simp)] at hc1
    have hnd' := List.nodup_cons.1 hnd
    obtain ⟨g', h', hc'⟩ := ih g1 hr1 hall.2 hnd'.2 (by
      intro q hq
      rw [hl1 q.1 q.2, hdead q (by simp [hq])]
      have hne : ¬ ((q.1, q.2) = (p.1, p.2)) := by
        intro e
        have : q = p := Prod.ext (congrArg Prod.fst e) (congrArg Prod.snd e)
        rw [this] at hq
        exact hnd'.1 hq
      simp [hne])
    refine ⟨g', ?_, ?_⟩
    · simp only [stampAll, h1, Outcome.andThen]
      exact h'
    · rw [hc', hc1]
      simp only [List.length_cons]
      simp only [Bool.false_eq_true, if_false]
      omega

/-- A stamp whose cells all lie in the grid completes, keeps the shape, and the
live cells afterwards are the live cells before plus the stamped ones. -/
theorem stampAll_done (W H : Nat) (L : List (Int × Int)) (g : Grid) (hr : Rect g W H)
    (h : L.all (inGrid W H) = true) :
    ∃ g', stampAll g L = .done g' ∧ Rect g' W H ∧
      ∀ a b : Int, live g' a b = (live g a b || decide ((a, b) ∈ L)) := by
  obtain ⟨g', h', hr', hl⟩ := stampAll_spec W H L g hr
  rw [h] at h'
  have htw : L.takeWhile (inGrid W H) = L := by
    rw [List.takeWhile_eq_self_iff]
    intro p hp
    exact List.all_eq_true.1 h p hp
  refine ⟨g', by simpa using h', hr', ?_⟩
  intro a b
  rw [hl a b, htw]

theorem gliderCells_nodup (x y : Int) : (gliderCells x y).Nodup := by
  simp [gliderCells]

theorem acornCells_nodup (x y : Int) : (acornCells x y).Nodup := by
  simp [acornCells]

theorem diehardCells_nodup (x y : Int) : (diehardCells x y).Nodup := by
  simp [diehardCells]

/-- On the all-dead grid a stamp of distinct in-range cells leaves exactly as
many live cells as it has cells. -/
theorem stampAll_dead_liveCount (W H : Nat) (L : List (Int × Int))
    (h : L.all (inGrid W H) = true) (hnd : L.Nodup) :
    ∃ g', stampAll (List.replicate W (List.replicate H false)) L = .done g' ∧
      liveCount g' = L.length := by
  obtain ⟨g', h', hc⟩ := stampAll_liveCount W H L _ (Rect_replicate W H false) h hnd
    (fun p _ => live_replicate W H p.1 p.2)
  exact ⟨g', h', by rw [hc, liveCount_replicate]; omega⟩

/-- C12: on a `W`x`H` grid, at an anchor for which all written cells are in
range, `AddGlider`, `AddAcorn` and `AddDiehard` complete and the live cells
afterwards are the live cells before plus the cells anchor+offset of their
table, nothing else changing; the tables hold 5, 7 and 7 pairwise distinct
cells, and stamping onto the all-dead grid leaves exactly 5, 7 and 7 live
cells. -/
theorem stamps_set_exactly_their_tables (cells : Grid) (W H : Nat) (hr : Rect cells W H)
    (x y : Int) :
    ((gliderCells x y).all (inGrid W H) = true →
      ∃ g, AddGlider cells x y = .done g ∧ ∀ a b : Int,
        live g a b = (live cells a b || decide ((a, b) ∈ gliderCells x y))) ∧
    ((acornCells x y).all (inGrid W H) = true →
      ∃ g, AddAcorn cells x y = .done g ∧ ∀ a b : Int,
        live g a b = (live cells a b || decide ((a, b) ∈ acornCells x y))) ∧
    ((diehardCells x y).all (inGrid W H) = true →
      ∃ g, AddDiehard cells x y = .done g ∧ ∀ a b : Int,
        live g a b = (live cells a b || decide ((a, b) ∈ diehardCells x y))) ∧
    ((gliderCells x y).length = 5 ∧ (gliderCells x y).Nodup ∧
      (acornCells x y).length = 7 ∧ (acornCells x y).Nodup ∧
      (diehardCells x y).length = 7 ∧ (diehardCells x y).Nodup) ∧
    ((gliderCells x y).all (inGrid W H) = true →
      ∃ g, AddGlider (List.replicate W (List.replicate H false)) x y = .done g ∧
        liveCount g = 5) ∧
    ((acornCells x y).all (inGrid W H) = true →
      ∃ g, AddAcorn (List.replicate W (List.replicate H false)) x y = .done g ∧
        liveCount g = 7) ∧
    ((diehardCells x y).all (inGrid W H) = true →
      ∃ g, AddDiehard (List.replicate W (List.replicate H false)) x y = .done g ∧
        liveCount g = 7) := by
  refine ⟨fun h => ?_, fun h => ?_, fun h => ?_,
    ⟨rfl, gliderCells_nodup x y, rfl, acornCells_nodup x y, rfl, diehardCells_nodup x y⟩,
    fun h => ?_, fun h => ?_, fun h => ?_⟩
  · obtain ⟨g, hg, -, hl⟩ := stampAll_done W H _ cells hr h
    exact ⟨g, by rw [AddGlider_eq_stampAll]; exact hg, hl⟩
  · obtain ⟨g, hg, -, hl⟩ := stampAll_done W H _ cells hr h
    exact ⟨g, by rw [AddAcorn_eq_stampAll]; exact hg, hl⟩
  · obtain ⟨g, hg, -, hl⟩ := stampAll_done W H _ cells hr h
    exact ⟨g, by rw [AddDiehard_eq_stampAll]; exact hg, hl⟩
  · obtain ⟨g, hg, hc⟩ := stampAll_dead_liveCount W H _ h (gliderCells_nodup x y)
    exact ⟨g, by rw [AddGlider_eq_stampAll]; exact hg, hc⟩
  · obtain ⟨g, hg, hc⟩ := stampAll_dead_liveCount W H _ h (acornCells_nodup x y)
    exact ⟨g, by rw [AddAcorn_eq_stampAll]; exact hg, hc⟩
  · obtain ⟨g, hg, hc⟩ := stampAll_dead_liveCount W H _ h (diehardCells_nodup x y)
    exact ⟨g, by rw [AddDiehard_eq_stampAll]; exact hg, hc⟩

/-- C12 for `AddAcorn(3, 4)` on the all-dead 40x40 world. -/
theorem stamps_set_exactly_their_tables_witness :
    Rect dead40 40 40 ∧ (acornCells 3 4).all (inGrid 40 40) = true ∧
      (∃ g, AddAcorn dead40 3 4 = .done g ∧ ∀ a b : Int,
        live g a b = (live dead40 a b || decide ((a, b) ∈ acornCells 3 4))) ∧
      ∃ g, AddAcorn (List.replicate 40 (List.replicate 40 false)) 3 4 = .done g ∧
        liveCount g = 7 :=
  ⟨Rect_replicate 40 40 false, by decide,
    (stamps_set_exactly_their_tables dead40 40 40 (Rect_replicate 40 40 false) 3 4).2.1
      (by decide),
    (stamps_set_exactly_their_tables dead40 40 40 (Rect_replicate 40 40 false)
      3 4).2.2.2.2.2.1 (by decide)⟩

/-- C13 at a failing input, `AddGlider(10,10)` on the all-dead 40x40 world.  The
pictures of `AddAcorn` and `AddDiehard`, read with the column as x offset and
the row as y offset, are the cells those functions write; the picture of
`AddGlider` read the same way has `(10,10)`, `(11,10)`, `(10,11)`, `(12,11)`,
`(10,12)`, but the cells set are `(12,12)`, `(12,13)`, `(13,12)`, `(14,12)`,
`(13,14)`: `(10,10)` stays dead and `(12,12)`, not in the picture, is set. -/
theorem AddGlider_differs_from_its_picture :
    (∀ (x y : Int) (p : Int × Int), p ∈ acornCells x y ↔ p ∈ acornPicture x y) ∧
    (∀ (x y : Int) (p : Int × Int), p ∈ diehardCells x y ↔ p ∈ diehardPicture x y) ∧
    gliderPicture 10 10 = [(10, 10), (11, 10), (10, 11), (12, 11), (10, 12)] ∧
    ∃ g, AddGlider dead40 10 10 = .done g ∧
      (∀ a b : Int, live g a b = liveIn glider0 a b) ∧
      live g 10 10 = false ∧ (10, 10) ∈ gliderPicture 10 10 ∧
      live g 12 12 = true ∧ (12, 12) ∉ gliderPicture 10 10 := by
  refine ⟨fun x y p => Iff.rfl, ?_, by decide, _, AddGlider_dead40, ?_, ?_, by decide, ?_,
    by decide⟩
  · intro x y p
    simp only [diehardCells, diehardPicture, List.mem_cons, List.mem_singleton,
      List.not_mem_nil, or_false]
    tauto
  · intro a b
    rw [live_gridOf_eq, Bool.eq_iff_iff]
    simp only [liveIn, glider0, List.any_cons, List.any_nil, Bool.or_false,
      Bool.and_eq_true, Bool.or_eq_true, decide_eq_true_eq, beq_iff_eq, Nat.cast_ofNat]
    omega
  · rw [live_gridOf_eq]; decide
  · rw [live_gridOf_eq]; decide

/-! ## Toggling, the shape invariant, the stopped engine and the tasks
(C14, C15, C16, C19) -/

/-- A toggle outside a rectangular grid panics and leaves the grid as it was. -/
theorem ToggleCell_outside (g : Grid) (W H : Nat) (hr : Rect g W H) (x y : Int)
    (h : inGrid W H (x, y) = false) : ToggleCell g x y = .panic g := by
  unfold ToggleCell
  cases hx : index g x with
  | none => rfl
  | some l =>
    simp only []
    obtain ⟨hx0, hget⟩ := (index_eq_some_iff g x l).1 hx
    have hmem : l ∈ g := List.getElem?_mem hget
    have hlen : l.length = H := hr.2 l hmem
    obtain ⟨hlt, -⟩ := List.getElem?_eq_some.1 hget
    have hW := hr.1
    have hy : index l y = none := by
      rw [index_eq_none_iff]
      simp only [inGrid, decide_eq_false_iff_not] at h
      omega
    rw [hy]

/-- Whatever a command does, the grid it leaves is a rectangle of the same
shape. -/
theorem Cmd.run_state_rect (g : Grid) (W H : Nat) (hr : Rect g W H) (c : Cmd) :
    Rect (c.run g).state W H := by
  cases c with
  | toggle x y =>
    by_cases h : Life.inGrid W H (x, y) = true
    · obtain ⟨g', hg', hr'⟩ := Cmd.run_done g W H hr (Cmd.toggle x y)
        (by simp [Cmd.inGrid, Cmd.cells, h])
      rw [hg']; exact hr'
    · have h' : Life.inGrid W H (x, y) = false := by simpa using h
      simp only [Cmd.run, ToggleCell_outside g W H hr x y h', Outcome.state]
      exact hr
  | acorn x y =>
    obtain ⟨g', hg', hr', -⟩ := stampAll_spec W H (acornCells x y) g hr
    simp only [Cmd.run, AddAcorn_eq_stampAll, hg']
    split <;> exact hr'
  | glider x y =>
    obtain ⟨g', hg', hr', -⟩ := stampAll_spec W H (gliderCells x y) g hr
    simp only [Cmd.run, AddGlider_eq_stampAll, hg']
    split <;> exact hr'

theorem call_state (w : World) (f : Cmd) :
    (call w f).state = { w with Cells := (f.run w.Cells).state, called := w.called ++ [f] } := by
  unfold call
  cases f.run w.Cells <;> rfl

theorem queue_wellFormed (w : World) (W H : Nat) (hw : WellFormed w W H) (f : Cmd) :
    WellFormed (queue w f).state W H := by
  unfold queue
  split
  · exact hw
  · split
    · rw [call_state]
      exact ⟨hw.1, hw.2.1, Cmd.run_state_rect w.Cells W H hw.2.2 f⟩
    · split
      · exact hw
      · exact hw

theorem RefreshCellsBody_wellFormed (rule : Rule) (w : World) (W H : Nat)
    (hw : WellFormed w W H) : WellFormed (RefreshCellsBody rule w).state W H := by
  obtain ⟨next, hg, hr⟩ := generation_of_wellFormed rule w W H hw
  unfold RefreshCellsBody
  rw [hg]
  simp only [selectCmd]
  cases hch : w.ch with
  | nil => exact ⟨hw.1, hw.2.1, hr⟩
  | cons f rest =>
    simp only [call]
    have hrun := Cmd.run_state_rect w.Cells W H hw.2.2 f
    cases hf : f.run w.Cells with
    | done g => exact ⟨hw.1, hw.2.1, hr⟩
    | panic g => rw [hf] at hrun; exact ⟨hw.1, hw.2.1, hrun⟩
    | blocked g => rw [hf] at hrun; exact ⟨hw.1, hw.2.1, hrun⟩

/-- C14: if the current grid is a `Width` x `Height` rectangle, it is one again
after `ToggleCell`, `AddGlider`, `AddAcorn` or `AddDiehard` with in-range
targets, after `queue` with any command, after `TogglePause`, and after one
iteration of the background loop; `Width` and `Height` stay as they were. -/
theorem grid_stays_rectangular (w : World) (W H : Nat) (hw : WellFormed w W H) :
    (∀ x y : Int, inGrid W H (x, y) = true →
      ∃ g, ToggleCell w.Cells x y = .done g ∧ Rect g W H) ∧
    (∀ x y : Int, (gliderCells x y).all (inGrid W H) = true →
      ∃ g, AddGlider w.Cells x y = .done g ∧ Rect g W H) ∧
    (∀ x y : Int, (acornCells x y).all (inGrid W H) = true →
      ∃ g, AddAcorn w.Cells x y = .done g ∧ Rect g W H) ∧
    (∀ x y : Int, (diehardCells x y).all (inGrid W H) = true →
      ∃ g, AddDiehard w.Cells x y = .done g ∧ Rect g W H) ∧
    (∀ f : Cmd, WellFormed (queue w f).state W H) ∧
    WellFormed (TogglePause w).1 W H ∧
    (∀ rule : Rule, WellFormed (RefreshCellsBody rule w).state W H) := by
  refine ⟨?_, ?_, ?_, ?_, fun f => queue_wellFormed w W H hw f, ?_,
    fun rule => RefreshCellsBody_wellFormed rule w W H hw⟩
  · intro x y h
    exact Cmd.run_done w.Cells W H hw.2.2 (Cmd.toggle x y) (by simp [Cmd.inGrid, Cmd.cells, h])
  · intro x y h
    obtain ⟨g, hg, hr, -⟩ := stampAll_done W H _ w.Cells hw.2.2 h
    exact ⟨g, by rw [AddGlider_eq_stampAll]; exact hg, hr⟩
  · intro x y h
    obtain ⟨g, hg, hr, -⟩ := stampAll_done W H _ w.Cells hw.2.2 h
    exact ⟨g, by rw [AddAcorn_eq_stampAll]; exact hg, hr⟩
  · intro x y h
    obtain ⟨g, hg, hr, -⟩ := stampAll_done W H _ w.Cells hw.2.2 h
    exact ⟨g, by rw [AddDiehard_eq_stampAll]; exact hg, hr⟩
  · unfold TogglePause
    split <;> exact hw

/-- C14 on the 10x10 world with `ToggleCell(0,0)` queued. -/
theorem grid_stays_rectangular_witness :
    WellFormed clickWorld 10 10 ∧
      WellFormed (queue clickWorld (Cmd.glider 9 9)).state 10 10 ∧
      WellFormed (TogglePause clickWorld).1 10 10 ∧
      WellFormed (RefreshCellsBody conway clickWorld).state 10 10 :=
  ⟨by decide, (grid_stays_rectangular clickWorld 10 10 (by decide)).2.2.2.2.1 _,
    (grid_stays_rectangular clickWorld 10 10 (by decide)).2.2.2.2.2.1,
    (grid_stays_rectangular clickWorld 10 10 (by decide)).2.2.2.2.2.2 _⟩

/-- C15, as the code has it: called with `Running` false, `queue(ch, f)`
returns normally at its first statement; it neither calls `f` nor sends it, and
the world is as before. -/
theorem queue_returns_when_stopped (w : World) (f : Cmd) (h : w.Running = false) :
    queue w f = .done w := by
  simp [queue, h]

/-- The amended C15 on the stopped 10x10 world, with a glider stamp. -/
theorem queue_returns_when_stopped_witness :
    stopped10.Running = false ∧ queue stopped10 (Cmd.glider 1 1) = .done stopped10 :=
  ⟨by decide, queue_returns_when_stopped stopped10 (Cmd.glider 1 1) (by decide)⟩

/-- C15 as stated fails: on the stopped 10x10 world `queue` with
`ToggleCell(0,0)` completes normally, with the command not called, the channel
empty and the grid untouched; nothing is reported to the caller. -/
theorem queue_on_stopped_engine_completes :
    stopped10.Running = false ∧
      queue stopped10 (Cmd.toggle 0 0) = .done stopped10 ∧
      (queue stopped10 (Cmd.toggle 0 0)).state.called = [] ∧
      (queue stopped10 (Cmd.toggle 0 0)).state.ch = [] := by
  decide

theorem Sys.step_tasks_le (rule : Rule) (s : Sys) (e : Event)
    (h : s.tasks.length ≤ 1)
    (hg : e = Event.toggle → s.world.Paused = true → s.tasks = []) :
    (s.step rule e).tasks.length ≤ 1 := by
  cases e with
  | toggle =>
    simp only [Sys.step, TogglePause]
    by_cases hp : s.world.Paused = true
    · simp [hp, hg rfl hp]
    · simp [hp, h]
  | test i =>
    simp only [Sys.step]
    split
    · split
      · simpa using h
      · exact le_trans (List.length_eraseIdx_le _ _) h
    · exact h
  | body i =>
    simp only [Sys.step]
    split
    · split
      · simpa using h
      · simp
      · exact h
    · exact h

/-- Along a run in which every resume happens while no task is live, at most
one task is live after every number of steps. -/
theorem Sys.run_tasks_le (rule : Rule) :
    ∀ (evs : List Event) (s : Sys), s.tasks.length ≤ 1 →
      Sys.resumesIdle rule s evs = true →
      ∀ k : Nat, (Sys.run rule s (evs.take k)).tasks.length ≤ 1 := by
  intro evs
  induction evs with
  | nil => intro s h _ k; simpa [Sys.run] using h
  | cons e es ih =>
    intro s h hg k
    cases k with
    | zero => simpa [Sys.run] using h
    | succ k =>
      simp only [Sys.resumesIdle, Bool.and_eq_true] at hg
      simp only [List.take_succ_cons, Sys.run]
      apply ih _ _ hg.2
      apply Sys.step_tasks_le rule s e h
      intro he hp
      subst he
      simpa [hp] using hg.1

/-- C16, as the code has it: in every interleaving of foreground `TogglePause`
calls with background `RefreshCells` tasks in which each resume happens while
no task is live, that is after the task running before has seen the pause at
its loop test and returned, the number of live tasks never exceeds one. -/
theorem at_most_one_task_when_resumes_are_idle (rule : Rule) (s : Sys) (evs : List Event)
    (h : s.tasks.length ≤ 1) (hg : Sys.resumesIdle rule s evs = true) :
    ∀ k : Nat, (Sys.run rule s (evs.take k)).tasks.length ≤ 1 :=
  Sys.run_tasks_le rule evs s h hg

/-- The amended C16 on the 10x10 start: resume, the task enters its loop,
pause, the task ends its iteration, sees the pause and returns, resume again. -/
theorem at_most_one_task_when_resumes_are_idle_witness :
    Sys.resumesIdle conway start10 patientRun = true ∧
      ∀ k : Nat, (Sys.run conway start10 (patientRun.take k)).tasks.length ≤ 1 :=
  ⟨by decide!,
    at_most_one_task_when_resumes_are_idle conway start10 patientRun (by decide) (by decide!)⟩

/-- C16 as stated fails: from the paused start, resume, let the task enter its
loop body, then pause and resume again before the task is back at its loop
test: two tasks are live, and both pass their next test and go on. -/
theorem two_tasks_after_pause_and_resume :
    hastyRun = [Event.toggle, Event.test 0, Event.toggle, Event.toggle] ∧
    (Sys.run conway start10 hastyRun).tasks = [Phase.body, Phase.top] ∧
    (Sys.run conway start10 hastyRun).tasks.length = 2 ∧
    (Sys.run conway start10
        (hastyRun ++ [Event.test 1, Event.body 0, Event.test 0])).tasks =
      [Phase.body, Phase.body] := by
  decide!

/-- C19: on a rectangular grid `ToggleCell(x, y)` with `(x, y)` in range
completes, negates cell `(x, y)`, leaves every other cell as it was, and a
second `ToggleCell(x, y)` gives back the grid it started from; with `(x, y)`
out of range it panics, reading no wrapped cell and leaving the grid as it
was. -/
theorem ToggleCell_is_an_involution (g : Grid) (W H : Nat) (hr : Rect g W H) (x y : Int) :
    (inGrid W H (x, y) = true →
      ∃ g', ToggleCell g x y = .done g' ∧ live g' x y = (!live g x y) ∧
        (∀ a b : Int, ¬ (a = x ∧ b = y) → live g' a b = live g a b) ∧
        ToggleCell g' x y = .done g) ∧
    (inGrid W H (x, y) = false → ToggleCell g x y = .panic g) := by
  refine ⟨fun h => ?_, fun h => ToggleCell_outside g W H hr x y h⟩
  simp only [inGrid, decide_eq_true_eq] at h
  obtain ⟨i, rfl⟩ : ∃ i : Nat, x = i := ⟨x.toNat, by omega⟩
  obtain ⟨j, rfl⟩ : ∃ j : Nat, y = j := ⟨y.toNat, by omega⟩
  obtain ⟨g', hg', hr', hv, hf⟩ := ToggleCell_inside g W H hr i j (by omega) (by omega)
  obtain ⟨g2, hg2, hr2, hv', hf'⟩ := ToggleCell_inside g' W H hr' i j (by omega) (by omega)
  refine ⟨g', hg', hv, hf, ?_⟩
  have e : g2 = g := by
    apply grid_ext g2 g W H hr2 hr
    intro a b _ _
    by_cases hab : (a : Int) = i ∧ (b : Int) = j
    · rw [hab.1, hab.2, hv', hv]
      simp
    · rw [hf' a b hab, hf a b hab]
  rw [hg2, e]

/-- C19 on the 5x5 example grid, at the live corner `(0,0)`. -/
theorem ToggleCell_is_an_involution_witness :
    ∃ g', ToggleCell corner5 0 0 = .done g' ∧ live g' 0 0 = (!live corner5 0 0) ∧
      (∀ a b : Int, ¬ (a = 0 ∧ b = 0) → live g' a b = live corner5 a b) ∧
      ToggleCell g' 0 0 = .done corner5 :=
  (ToggleCell_is_an_involution corner5 5 5 (by decide) 0 0).1 (by decide)

/-! ## When `init` panics (C18) -/

theorem cutSlash_none (s : GoString) (h : 47 ∉ s) : cutSlash s = none := by
  induction s with
  | nil => rfl
  | cons c rest ih =>
    have hc : ¬ c = 47 := fun e => h (by simp [e])
    have hrest : 47 ∉ rest := fun e => h (by simp [e])
    rw [cutSlash, if_neg hc, ih hrest]

theorem cutSlash_first (a b : GoString) (h : 47 ∉ a) :
    cutSlash (a ++ 47 :: b) = some (a, b) := by
  induction a with
  | nil => simp [cutSlash]
  | cons c rest ih =>
    have hc : ¬ c = 47 := fun e => h (by simp [e])
    have hrest : 47 ∉ rest := fun e => h (by simp [e])
    rw [List.cons_append, cutSlash, if_neg hc, ih hrest]

/-- The loop over the characters after the name: it completes when they are all
digits, adding each to the set the name selects. -/
theorem initDigits_ok (name : Nat) :
    ∀ (rest : GoString) (r : Rule), (∀ c ∈ rest, 48 ≤ c ∧ c ≤ 57) →
      ∃ r', initDigits name rest r = some r' ∧
        ∀ (a : Bool) (k : Int), r' a k = true ↔
          r a k = true ∨
            (((name = 66 ∧ a = false) ∨ (name = 83 ∧ a = true)) ∧
              ∃ c ∈ rest, (c : Int) - 48 = k) := by
  intro rest
  induction rest with
  | nil => intro r _; exact ⟨r, rfl, by simp⟩
  | cons c rest ih =>
    intro r h
    have hc : 48 ≤ c ∧ c ≤ 57 := h c (by simp)
    obtain ⟨r', hr', hspec⟩ := ih
      (if name = 66 then r.set false ((c : Int) - 48)
        else if name = 83 then r.set true ((c : Int) - 48) else r)
      (fun e he => h e (by simp [he]))
    refine ⟨r', ?_, ?_⟩
    · simp only [initDigits, Atoi, if_pos hc]
      exact hr'
    · intro a k
      have key : (if name = 66 then r.set false ((c : Int) - 48)
            else if name = 83 then r.set true ((c : Int) - 48) else r) a k = true ↔
          r a k = true ∨
            (((name = 66 ∧ a = false) ∨ (name = 83 ∧ a = true)) ∧ (c : Int) - 48 = k) := by
        by_cases h66 : name = 66
        · have h83 : ¬ name = 83 := by omega
          rw [if_pos h66, Rule.set_apply]
          tauto
        · by_cases h83 : name = 83
          · rw [if_neg h66, if_pos h83, Rule.set_apply]
            tauto
          · rw [if_neg h66, if_neg h83]
            tauto
      have hex : (∃ e ∈ c :: rest, (e : Int) - 48 = k) ↔
          ((c : Int) - 48 = k ∨ ∃ e ∈ rest, (e : Int) - 48 = k) := by
        simp
      rw [hspec a k, key, hex]
      exact or_and_regroup _ _ _ _

/-- One part: a panic exactly when it is empty or holds a non-digit after its
first character; otherwise its digits join the set its first character
selects. -/
theorem initPart_spec (part : GoString) (r : Rule) :
    (initPart part r = none ↔
      (part = [] ∨ ∃ c ∈ part.tail, ¬ (48 ≤ c ∧ c ≤ 57))) ∧
    (∀ r', initPart part r = some r' → ∀ (a : Bool) (k : Int), r' a k = true ↔
      r a k = true ∨ ∃ name rest, part = name :: rest ∧
        ((name = 66 ∧ a = false) ∨ (name = 83 ∧ a = true)) ∧
          ∃ c ∈ rest, (c : Int) - 48 = k) := by
  cases part with
  | nil => exact ⟨by simp [initPart], by intro r' h; simp [initPart] at h⟩
  | cons name rest =>
    by_cases hbad : ∃ c ∈ rest, ¬ (48 ≤ c ∧ c ≤ 57)
    · have hn := initDigits_non_digit name rest r hbad
      refine ⟨?_, ?_⟩
      · simp only [initPart, hn, true_iff, List.tail_cons]
        exact Or.inr hbad
      · intro r' h
        simp [initPart, hn] at h
    · have hall : ∀ c ∈ rest, 48 ≤ c ∧ c ≤ 57 := by
        intro c hc
        by_contra hcon
        exact hbad ⟨c, hc, hcon⟩
      obtain ⟨r1, h1, hs1⟩ := initDigits_ok name rest r hall
      refine ⟨?_, ?_⟩
      · simp only [initPart, h1, List.tail_cons]
        constructor
        · intro h; cases h
        · rintro (h | h)
          · cases h
          · exact absurd h hbad
      · intro r' h a k
        simp only [initPart, h1, Option.some.injEq] at h
        subst h
        rw [hs1 a k]
        constructor
        · rintro (h | ⟨hc, hex⟩)
          · exact Or.inl h
          · exact Or.inr ⟨name, rest, rfl, hc, hex⟩
        · rintro (h | ⟨n, rs, he, hc, hex⟩)
          · exact Or.inl h
          · obtain ⟨rfl, rfl⟩ := List.cons.inj he
            exact Or.inr ⟨hc, hex⟩

/-- The loop over the parts: a panic exactly when some part panics. -/
theorem initParts_spec :
    ∀ (parts : List GoString) (r : Rule),
      (initParts parts r = none ↔
        ∃ part ∈ parts, part = [] ∨ ∃ c ∈ part.tail, ¬ (48 ≤ c ∧ c ≤ 57)) ∧
      (∀ r', initParts parts r = some r' → ∀ (a : Bool) (k : Int), r' a k = true ↔
        r a k = true ∨ ∃ part ∈ parts, ∃ name rest, part = name :: rest ∧
          ((name = 66 ∧ a = false) ∨ (name = 83 ∧ a = true)) ∧
            ∃ c ∈ rest, (c : Int) - 48 = k) := by
  intro parts
  induction parts with
  | nil => intro r; exact ⟨by simp [initParts], by intro r' h; simp [initParts] at h; simp [h]⟩
  | cons part parts ih =>
    intro r
    obtain ⟨hp1, hp2⟩ := initPart_spec part r
    cases hp : initPart part r with
    | none =>
      refine ⟨?_, ?_⟩
      · simp only [initParts, hp, true_iff]
        exact ⟨part, by simp, hp1.1 hp⟩
      · intro r' h; simp [initParts, hp] at h
    | some r1 =>
      obtain ⟨ih1, ih2⟩ := ih r1
      have hgood : ¬ (part = [] ∨ ∃ c ∈ part.tail, ¬ (48 ≤ c ∧ c ≤ 57)) := by
        intro hb
        rw [hp1.2 hb] at hp
        cases hp
      refine ⟨?_, ?_⟩
      · simp only [initParts, hp]
        rw [ih1]
        constructor
        · rintro ⟨q, hq, hb⟩
          exact ⟨q, by simp [hq], hb⟩
        · rintro ⟨q, hq, hb⟩
          rcases List.mem_cons.1 hq with e | hq'
          · subst e; exact absurd hb hgood
          · exact ⟨q, hq', hb⟩
      · intro r' h a k
        simp only [initParts, hp] at h
        rw [ih2 r' h a k, hp2 r1 hp a k]
        constructor
        · rintro ((h | h) | ⟨q, hq, h⟩)
          · exact Or.inl h
          · exact Or.inr ⟨part, by simp, h⟩
          · exact Or.inr ⟨q, by simp [hq], h⟩
        · rintro (h | ⟨q, hq, h⟩)
          · exact Or.inl (Or.inl h)
          · rcases List.mem_cons.1 hq with e | hq'
            · subst e; exact Or.inl (Or.inr h)
            · exact Or.inr ⟨q, hq', h⟩

/-- C18: with the rule string split at its first `"/"` into at most two parts,
`init` panics iff some part is empty or some character of a part after its
first one is not a digit `'0'..'9'`; on every other string it completes, and
the table then holds `n` as born for each digit `n` of a part starting with
`"B"`, as survive for each digit of a part starting with `"S"`, and nothing
for the digits of a part starting with another character. -/
theorem init_panics_iff_empty_part_or_non_digit (s : GoString) :
    ((47 ∉ s → SplitN2 s = [s]) ∧
      (∀ a b : GoString, 47 ∉ a → s = a ++ 47 :: b → SplitN2 s = [a, b])) ∧
    (initRule s = none ↔
      ∃ part ∈ SplitN2 s, part = [] ∨ ∃ c ∈ part.tail, ¬ (48 ≤ c ∧ c ≤ 57)) ∧
    (∀ r, initRule s = some r → ∀ (a : Bool) (k : Int), r a k = true ↔
      ∃ part ∈ SplitN2 s, ∃ name rest, part = name :: rest ∧
        ((name = 66 ∧ a = false) ∨ (name = 83 ∧ a = true)) ∧
          ∃ c ∈ rest, (c : Int) - 48 = k) := by
  refine ⟨⟨?_, ?_⟩, (initParts_spec (SplitN2 s) emptyRule).1, ?_⟩
  · intro h
    simp [SplitN2, cutSlash_none s h]
  · intro a b ha hs
    subst hs
    simp [SplitN2, cutSlash_first a b ha]
  · intro r hr a k
    have := (initParts_spec (SplitN2 s) emptyRule).2 r hr a k
    rw [this]
    simp [emptyRule]

/-- C18 on `"B36/X9/S23"`: the second part is `"X9/S23"`, whose `"/"` is not a
digit, so `init` panics; and on `"B36/X9"`, which parses to born `{3, 6}`. -/
theorem init_panics_iff_empty_part_or_non_digit_witness :
    SplitN2 (ascii "B36/X9/S23") = [ascii "B36", ascii "X9/S23"] ∧
      initRule (ascii "B36/X9/S23") = none ∧
      (initRule (ascii "B36/X9")).map (fun r => (r false 3, r false 6, r false 9, r true 9)) =
        some (true, true, false, false) :=
  ⟨by decide,
    (init_panics_iff_empty_part_or_non_digit (ascii "B36/X9/S23")).2.1.2 (by decide),
    by decide⟩

/-! ## The seed glider of `Setup` (C20) -/

theorem seed_in_range_iff (W H : Nat) :
    (gliderCells (Int.tdiv W 2) (Int.tdiv H 2)).all (inGrid W H) = true ↔ (9 ≤ W ∧ 9 ≤ H) := by
  rw [Int.tdiv_eq_ediv (Int.ofNat_nonneg W) (by decide),
    Int.tdiv_eq_ediv (Int.ofNat_nonneg H) (by decide)]
  simp only [gliderCells, inGrid, List.all_cons, List.all_nil, Bool.and_true,
    Bool.and_eq_true, decide_eq_true_eq]
  omega

/-- Without the allocations `Setup` panics before any grid exists. -/
theorem Setup_refused (grants : Allocator) (W H : Int) (h : grants W H = false) :
    Setup grants W H = .panic ⟨W, H, [], false, false, [], []⟩ := by
  unfold Setup
  rw [if_pos h]

/-- What `Setup` does on a `W`x`H` world the runtime grants, by whether the
seed glider fits. -/
theorem Setup_eq (grants : Allocator) (W H : Nat) (hg : grants W H = true) :
    (9 ≤ W ∧ 9 ≤ H →
      ∃ g, Setup grants W H = .done ⟨W, H, g, true, true, [], []⟩ ∧ Rect g W H ∧
        liveCount g = 5 ∧
        ∀ a b : Int,
          live g a b = decide ((a, b) ∈ gliderCells (Int.tdiv W 2) (Int.tdiv H 2))) ∧
    (¬ (9 ≤ W ∧ 9 ≤ H) →
      ∃ g, Setup grants W H = .panic ⟨W, H, g, false, false, [], []⟩) := by
  have hne : ¬ grants W H = false := by rw [hg]; exact Bool.noConfusion
  refine ⟨fun h => ?_, fun h => ?_⟩
  · have hin := (seed_in_range_iff W H).2 h
    obtain ⟨g, hg1, hr, hl⟩ := stampAll_done W H _ _ (Rect_replicate W H false) hin
    obtain ⟨g', hg', hc⟩ := stampAll_dead_liveCount W H _ hin
      (gliderCells_nodup (Int.tdiv W 2) (Int.tdiv H 2))
    have e : g' = g := by
      rw [hg1] at hg'
      exact (Outcome.done.inj hg').symm
    subst e
    refine ⟨g', ?_, hr, hc, ?_⟩
    · unfold Setup
      rw [if_neg hne]
      simp only [MakeCells_natCast, AddGlider_eq_stampAll, hg1]
    · intro a b
      rw [hl a b, live_replicate]
      simp
  · have hout : (gliderCells (Int.tdiv W 2) (Int.tdiv H 2)).all (inGrid W H) = false := by
      rw [Bool.eq_false_iff]
      exact fun hc => h ((seed_in_range_iff W H).1 hc)
    obtain ⟨g, hg1, -, -⟩ := stampAll_spec W H (gliderCells (Int.tdiv W 2) (Int.tdiv H 2)) _
      (Rect_replicate W H false)
    rw [hout] at hg1
    refine ⟨g, ?_⟩
    unfold Setup
    rw [if_neg hne]
    simp only [MakeCells_natCast, AddGlider_eq_stampAll]
    rw [hg1]
    simp

/-- C20: for `Width ≥ 0` and `Height ≥ 0`, the `AddGlider(Width/2, Height/2)` of
`Setup` on the fresh `Width` x `Height` grid writes only in-range cells iff
`Width ≥ 9` and `Height ≥ 9`; `Setup` completes exactly when the runtime grants
the fresh grid and the glider fits; when it completes, the grid is `Width` x
`Height` with exactly the 5 glider cells alive, and the engine is paused
(`Running` and `Paused` both true). -/
theorem Setup_seed_fits_iff_nine (grants : Allocator) (W H : Nat) :
    ((gliderCells (Int.tdiv W 2) (Int.tdiv H 2)).all (inGrid W H) = true ↔
      (9 ≤ W ∧ 9 ≤ H)) ∧
    ((∃ w, Setup grants W H = .done w) ↔ (grants W H = true ∧ 9 ≤ W ∧ 9 ≤ H)) ∧
    (∀ w, Setup grants W H = .done w →
      w.Running = true ∧ w.Paused = true ∧ WellFormed w W H ∧ liveCount w.Cells = 5 ∧
        ∀ a b : Int, live w.Cells a b =
          decide ((a, b) ∈ gliderCells (Int.tdiv W 2) (Int.tdiv H 2))) := by
  by_cases hg : grants W H = true
  · obtain ⟨hfit, hnot⟩ := Setup_eq grants W H hg
    refine ⟨seed_in_range_iff W H, ⟨?_, ?_⟩, ?_⟩
    · rintro ⟨w, hw⟩
      refine ⟨hg, ?_⟩
      by_contra hc
      obtain ⟨g, hg1⟩ := hnot hc
      rw [hg1] at hw
      cases hw
    · intro h
      obtain ⟨g, hg1, -⟩ := hfit h.2
      exact ⟨_, hg1⟩
    · intro w hw
      by_cases hc : 9 ≤ W ∧ 9 ≤ H
      · obtain ⟨g, hg1, hr, hcount, hl⟩ := hfit hc
        rw [hg1] at hw
        have e := Outcome.done.inj hw
        subst e
        exact ⟨rfl, rfl, ⟨rfl, rfl, hr⟩, hcount, hl⟩
      · obtain ⟨g, hg1⟩ := hnot hc
        rw [hg1] at hw
        cases hw
  · have hf : grants W H = false := by simpa using hg
    have hp := Setup_refused grants W H hf
    refine ⟨seed_in_range_iff W H, ⟨?_, ?_⟩, ?_⟩
    · rintro ⟨w, hw⟩
      rw [hp] at hw
      cases hw
    · intro h
      exact absurd h.1 hg
    · intro w hw
      rw [hp] at hw
      cases hw

/-- C20 on a machine that grants worlds up to 4096 x 4096: the 10x10 world,
the 8x12 world, where the glider does not fit, and the world of width `2^62`,
which the runtime does not grant. -/
theorem Setup_seed_fits_iff_nine_witness :
    (∃ w, Setup roomy 10 10 = .done w) ∧ (¬ ∃ w, Setup roomy 8 12 = .done w) ∧
      (¬ ∃ w, Setup roomy ((2 ^ 62 : Nat) : Int) ((9 : Nat) : Int) = .done w) ∧
      liveCount (Setup roomy 10 10).state.Cells = 5 :=
  ⟨(Setup_seed_fits_iff_nine roomy 10 10).2.1.2 (by decide),
    fun h => absurd ((Setup_seed_fits_iff_nine roomy 8 12).2.1.1 h).2 (by decide),
    fun h => absurd ((Setup_seed_fits_iff_nine roomy (2 ^ 62) 9).2.1.1 h).1 (by decide),
    by decide⟩

/-! ## Queued commands in the background loop (C9) -/

/-- A command with a cell outside the grid panics. -/
theorem Cmd.run_panic (g : Grid) (W H : Nat) (hr : Rect g W H) (c : Cmd)
    (h : c.inGrid W H = false) : ∃ g', c.run g = .panic g' := by
  cases c with
  | toggle x y =>
    refine ⟨g, ?_⟩
    simp only [Cmd.inGrid, Cmd.cells, List.all_cons, List.all_nil, Bool.and_true] at h
    exact ToggleCell_outside g W H hr x y h
  | acorn x y =>
    obtain ⟨g', hg', -, -⟩ := stampAll_spec W H (acornCells x y) g hr
    simp only [Cmd.inGrid, Cmd.cells] at h
    rw [h] at hg'
    exact ⟨g', by simpa [Cmd.run, AddAcorn_eq_stampAll] using hg'⟩
  | glider x y =>
    obtain ⟨g', hg', -, -⟩ := stampAll_spec W H (gliderCells x y) g hr
    simp only [Cmd.inGrid, Cmd.cells] at h
    rw [h] at hg'
    exact ⟨g', by simpa [Cmd.run, AddGlider_eq_stampAll] using hg'⟩

/-- The `select` on a channel that holds command `c` first: `c` is received
and called on the current grid, and the outcome of the call is the outcome of
the `select`. -/
theorem selectCmd_cons (w : World) (c : Cmd) (rest : List Cmd) (hch : w.ch = c :: rest) :
    selectCmd w =
      match c.run w.Cells with
      | .done g => .done { w with Cells := g, ch := rest, called := w.called ++ [c] }
      | .panic g => .panic { w with Cells := g, ch := rest, called := w.called ++ [c] }
      | .blocked g => .blocked { w with Cells := g, ch := rest, called := w.called ++ [c] } := by
  cases h : c.run w.Cells <;> simp only [selectCmd, hch, call, h]

/-- One iteration on a well-formed world whose channel holds command `c`
first, by the outcome of calling `c` on the grid the iteration started with. -/
theorem RefreshCellsBody_run (rule : Rule) (w : World) (W H : Nat)
    (hw : WellFormed w W H) (c : Cmd) (rest : List Cmd) (hch : w.ch = c :: rest) :
    ∃ next, generation rule w.Width w.Height w.Cells = some ⟨w.Cells, next⟩ ∧
      Rect next W H ∧
      RefreshCellsBody rule w =
        match c.run w.Cells with
        | .done _ => .done { w with Cells := next, ch := rest, called := w.called ++ [c] }
        | .panic g => .panic { w with Cells := g, ch := rest, called := w.called ++ [c] }
        | .blocked g =>
          .blocked { w with Cells := g, ch := rest, called := w.called ++ [c] } := by
  obtain ⟨next, hg, hr⟩ := generation_of_wellFormed rule w W H hw
  refine ⟨next, hg, hr, ?_⟩
  unfold RefreshCellsBody
  rw [hg]
  simp only [selectCmd, hch, call]
  cases c.run w.Cells <;> rfl

/-- The loop on a well-formed, running world whose channel holds the in-range
commands `good`, then the out-of-range command `bad`: the first `good.length`
iterations complete and call the commands of `good` in order; the next
iteration calls `bad` and panics, with `rest` still in the channel. -/
theorem RefreshCells_until_panic (rule : Rule) (W H : Nat) (bad : Cmd) (rest : List Cmd)
    (hbad : bad.inGrid W H = false) :
    ∀ (good : List Cmd) (n : Nat) (w : World), WellFormed w W H → w.Running = true →
      w.Paused = false → w.ch = good ++ bad :: rest → (∀ c ∈ good, c.inGrid W H = true) →
      (n ≤ good.length →
        ∃ w', RefreshCells rule n w = .done w' ∧ w'.ch = w.ch.drop n ∧
          w'.called = w.called ++ w.ch.take n) ∧
      (good.length < n →
        ∃ w', RefreshCells rule n w = .panic w' ∧ w'.ch = rest ∧
          w'.called = w.called ++ good ++ [bad]) := by
  intro good
  induction good with
  | nil =>
    intro n w hw hrun hp hch _
    refine ⟨fun hn => ?_, fun hn => ?_⟩
    · obtain rfl : n = 0 := by simpa using hn
      exact ⟨w, rfl, by simp, by simp⟩
    · obtain ⟨m, rfl⟩ : ∃ m, n = m + 1 := ⟨n - 1, by simp at hn; omega⟩
      obtain ⟨next, -, -, hb⟩ := RefreshCellsBody_run rule w W H hw bad rest (by simpa using hch)
      obtain ⟨g', hg'⟩ := Cmd.run_panic w.Cells W H hw.2.2 bad hbad
      rw [hg'] at hb
      refine ⟨{ w with Cells := g', ch := rest, called := w.called ++ [bad] }, ?_, rfl, by simp⟩
      rw [RefreshCells_succ rule m w hrun hp, hb]
      rfl
  | cons c good ih =>
    intro n w hw hrun hp hch hall
    have hc : c.inGrid W H = true := hall c (by simp)
    obtain ⟨next, -, hr, hb⟩ :=
      RefreshCellsBody_cons rule w W H hw c (good ++ bad :: rest) (by simpa using hch) hc
    cases n with
    | zero =>
      exact ⟨fun _ => ⟨w, rfl, by simp, by simp⟩, fun hn => absurd hn (by simp)⟩
    | succ m =>
      obtain ⟨h1, h2⟩ :=
        ih m { w with Cells := next, ch := good ++ bad :: rest, called := w.called ++ [c] }
          ⟨hw.1, hw.2.1, hr⟩ hrun hp rfl (fun d hd => hall d (by simp [hd]))
      refine ⟨fun hn => ?_, fun hn => ?_⟩
      · obtain ⟨w', h', hc', hcl'⟩ := h1 (by simpa using hn)
        refine ⟨w', ?_, ?_, ?_⟩
        · rw [RefreshCells_succ rule m w hrun hp, hb]
          exact h'
        · simpa [hch] using hc'
        · simpa [hch] using hcl'
      · obtain ⟨w', h', hc', hcl'⟩ := h2 (by simpa using hn)
        refine ⟨w', ?_, hc', ?_⟩
        · rw [RefreshCells_succ rule m w hrun hp, hb]
          exact h'
        · simpa using hcl'

/-- C9, as far as it holds: with the channel as a FIFO list, the `select` of an
iteration takes exactly the first command off a non-empty channel and calls it
once on the current grid, the outcome of the call being the outcome of the
`select`, and the rest stays in order; on an empty channel it takes none.  An
iteration whose command completes publishes the next generation; one whose
command panics ends the loop in that panic.  On a rectangular grid a command
completes when all its cells are in range and panics otherwise.  So after `c₁`
then `c₂` are queued on a running engine whose channel has room: when all
queued commands are in range, `n` iterations have called exactly the first `n`
of them, in submission order, `c₁` one iteration before `c₂`, each once; when
the first out-of-range one is `bad`, the commands before it are called in
order, one an iteration, the next iteration calls `bad` and panics, and the
commands behind `bad` are never called. -/
theorem commands_run_in_fifo_order_until_panic :
    (∀ (w : World) (c : Cmd) (rest : List Cmd), w.ch = c :: rest →
      selectCmd w =
        match c.run w.Cells with
        | .done g => .done { w with Cells := g, ch := rest, called := w.called ++ [c] }
        | .panic g => .panic { w with Cells := g, ch := rest, called := w.called ++ [c] }
        | .blocked g =>
          .blocked { w with Cells := g, ch := rest, called := w.called ++ [c] }) ∧
    (∀ w : World, w.ch = [] → selectCmd w = .done w) ∧
    (∀ (rule : Rule) (w : World) (W H : Nat) (c : Cmd) (rest : List Cmd),
      WellFormed w W H → w.ch = c :: rest →
      ∃ next, generation rule w.Width w.Height w.Cells = some ⟨w.Cells, next⟩ ∧
        RefreshCellsBody rule w =
          match c.run w.Cells with
          | .done _ => .done { w with Cells := next, ch := rest, called := w.called ++ [c] }
          | .panic g => .panic { w with Cells := g, ch := rest, called := w.called ++ [c] }
          | .blocked g =>
            .blocked { w with Cells := g, ch := rest, called := w.called ++ [c] }) ∧
    (∀ (rule : Rule) (w : World) (W H : Nat), WellFormed w W H → w.ch = [] →
      ∃ next, generation rule w.Width w.Height w.Cells = some ⟨w.Cells, next⟩ ∧
        RefreshCellsBody rule w = .done { w with Cells := next }) ∧
    (∀ (g : Grid) (W H : Nat) (c : Cmd), Rect g W H →
      (c.inGrid W H = true → ∃ g', c.run g = .done g' ∧ Rect g' W H) ∧
      (c.inGrid W H = false → ∃ g', c.run g = .panic g')) ∧
    (∀ (rule : Rule) (w : World) (W H : Nat) (c₁ c₂ : Cmd),
      WellFormed w W H → w.Running = true → w.Paused = false → w.ch.length + 2 ≤ 10 →
      ∃ w₁ w₂, queue w c₁ = .done w₁ ∧ queue w₁ c₂ = .done w₂ ∧
        w₂.ch = w.ch ++ [c₁, c₂] ∧
        ((∀ c ∈ w.ch ++ [c₁, c₂], c.inGrid W H = true) →
          ∀ n, ∃ w', RefreshCells rule n w₂ = .done w' ∧
            w'.ch = (w.ch ++ [c₁, c₂]).drop n ∧
            w'.called = w.called ++ (w.ch ++ [c₁, c₂]).take n) ∧
        ∀ (good : List Cmd) (bad : Cmd) (rest : List Cmd),
          w.ch ++ [c₁, c₂] = good ++ bad :: rest →
          (∀ c ∈ good, c.inGrid W H = true) → bad.inGrid W H = false →
          ∀ n,
            (n ≤ good.length →
              ∃ w', RefreshCells rule n w₂ = .done w' ∧
                w'.ch = (w.ch ++ [c₁, c₂]).drop n ∧
                w'.called = w.called ++ (w.ch ++ [c₁, c₂]).take n) ∧
            (good.length < n →
              ∃ w', RefreshCells rule n w₂ = .panic w' ∧ w'.ch = rest ∧
                w'.called = w.called ++ good ++ [bad])) := by
  refine ⟨selectCmd_cons, fun w hch => by simp only [selectCmd, hch], ?_, ?_, ?_, ?_⟩
  · intro rule w W H c rest hw hch
    obtain ⟨next, hg, -, hb⟩ := RefreshCellsBody_run rule w W H hw c rest hch
    exact ⟨next, hg, hb⟩
  · intro rule w W H hw hch
    obtain ⟨next, hg, -, hb⟩ := RefreshCellsBody_empty rule w W H hw hch
    exact ⟨next, hg, hb⟩
  · intro g W H c hr
    exact ⟨Cmd.run_done g W H hr c, Cmd.run_panic g W H hr c⟩
  · intro rule w W H c₁ c₂ hw hrun hp hlen
    refine ⟨{ w with ch := w.ch ++ [c₁] }, { w with ch := w.ch ++ [c₁, c₂] }, ?_, ?_, rfl,
      ?_, ?_⟩
    · exact queue_running w c₁ hrun hp (by omega)
    · rw [queue_running { w with ch := w.ch ++ [c₁] } c₂ hrun hp
        (by simp only [List.length_append, List.length_singleton]; omega)]
      simp
    · intro hall n
      obtain ⟨w', h', -, hc', hcl'⟩ := RefreshCells_spec rule W H n
        { w with ch := w.ch ++ [c₁, c₂] } hw hrun hp hall
      exact ⟨w', h', hc', hcl'⟩
    · intro good bad rest hsplit hall hbad n
      exact RefreshCells_until_panic rule W H bad rest hbad good n
        { w with ch := w.ch ++ [c₁, c₂] } hw hrun hp hsplit hall

/-- C9 on the 10x10 world with `ToggleCell(0,0)` already queued.  A glider
stamp and a second toggle, both in range, are queued behind it: every number of
iterations completes.  A glider stamp at `(9,9)`, out of range, and a toggle
are queued behind it: one iteration completes, the second panics in the stamp,
and the toggle stays in the channel. -/
theorem commands_run_in_fifo_order_until_panic_witness :
    WellFormed clickWorld 10 10 ∧
      (∃ w₁ w₂, queue clickWorld (Cmd.glider 1 1) = .done w₁ ∧
        queue w₁ (Cmd.toggle 9 9) = .done w₂ ∧
        ∀ n, ∃ w', RefreshCells conway n w₂ = .done w' ∧
          w'.ch = (clickWorld.ch ++ [Cmd.glider 1 1, Cmd.toggle 9 9]).drop n ∧
          w'.called =
            clickWorld.called ++ (clickWorld.ch ++ [Cmd.glider 1 1, Cmd.toggle 9 9]).take n) ∧
      (∃ w₁ w₂, queue clickWorld (Cmd.glider 9 9) = .done w₁ ∧
        queue w₁ (Cmd.toggle 5 5) = .done w₂ ∧
        (∃ w', RefreshCells conway 1 w₂ = .done w' ∧ w'.called = [Cmd.toggle 0 0]) ∧
        ∃ w', RefreshCells conway 2 w₂ = .panic w' ∧ w'.ch = [Cmd.toggle 5 5] ∧
          w'.called = [Cmd.toggle 0 0, Cmd.glider 9 9]) := by
  refine ⟨by decide, ?_, ?_⟩
  · obtain ⟨w₁, w₂, h1, h2, -, h3, -⟩ :=
      commands_run_in_fifo_order_until_panic.2.2.2.2.2 conway clickWorld 10 10 (Cmd.glider 1 1)
        (Cmd.toggle 9 9) (by decide) (by decide) (by decide) (by decide)
    exact ⟨w₁, w₂, h1, h2, h3 (by decide)⟩
  · obtain ⟨w₁, w₂, h1, h2, -, -, h3⟩ :=
      commands_run_in_fifo_order_until_panic.2.2.2.2.2 conway clickWorld 10 10 (Cmd.glider 9 9)
        (Cmd.toggle 5 5) (by decide) (by decide) (by decide) (by decide)
    have h4 := h3 [Cmd.toggle 0 0] (Cmd.glider 9 9) [Cmd.toggle 5 5] (by decide) (by decide)
      (by decide)
    obtain ⟨w', e1, -, e2⟩ := (h4 1).1 (by decide)
    obtain ⟨w'', e3, e4, e5⟩ := (h4 2).2 (by decide)
    exact ⟨w₁, w₂, h1, h2, ⟨w', e1, by rw [e2]; decide⟩, ⟨w'', e3, e4, by rw [e5]; decide⟩⟩

/-- C9 at a failing input: on the running 10x10 world with an empty channel, a
glider stamp at `(9,9)` and then a toggle of `(0,0)` are queued.  The first
iteration calls the stamp, which panics, so the loop ends there: however many
iterations are allowed, the toggle is still in the channel and was never
called. -/
theorem queued_command_behind_a_panic_never_runs :
    WellFormed running10 10 10 ∧ running10.Running = true ∧ running10.Paused = false ∧
      running10.ch = [] ∧ running10.called = [] ∧
      ∃ w₁ w₂, queue running10 (Cmd.glider 9 9) = .done w₁ ∧
        queue w₁ (Cmd.toggle 0 0) = .done w₂ ∧
        w₂.ch = [Cmd.glider 9 9, Cmd.toggle 0 0] ∧
        (∀ n, ∃ w', RefreshCells conway (n + 1) w₂ = .panic w' ∧
          w'.ch = [Cmd.toggle 0 0] ∧ w'.called = [Cmd.glider 9 9]) ∧
        ∀ n, Cmd.toggle 0 0 ∉ (RefreshCells conway n w₂).state.called := by
  have hw : WellFormed running10 10 10 := by decide
  have key : ∀ n, ∃ w', RefreshCells conway (n + 1)
      { running10 with ch := [Cmd.glider 9 9, Cmd.toggle 0 0] } = .panic w' ∧
      w'.ch = [Cmd.toggle 0 0] ∧ w'.called = [Cmd.glider 9 9] := by
    intro n
    obtain ⟨w', h1, h2, h3⟩ :=
      (RefreshCells_until_panic conway 10 10 (Cmd.glider 9 9) [Cmd.toggle 0 0] (by decide) []
        (n + 1) { running10 with ch := [Cmd.glider 9 9, Cmd.toggle 0 0] } hw rfl rfl rfl
        (by simp)).2 (by simp)
    exact ⟨w', h1, h2, by rw [h3]; rfl⟩
  refine ⟨hw, rfl, rfl, rfl, rfl, { running10 with ch := [Cmd.glider 9 9] },
    { running10 with ch := [Cmd.glider 9 9, Cmd.toggle 0 0] }, by decide, by decide, rfl,
    key, ?_⟩
  intro n
  cases n with
  | zero => decide
  | succ m =>
    obtain ⟨w', h1, -, h3⟩ := key m
    rw [h1]
    simp only [Outcome.state, h3]
    decide

/-! ## The glider on every grid it fits on (C6) -/

/-- The three cases of the modulo wrap of a neighbour index. -/
theorem wrap_cases (W : Nat) (x d : Int) (hx1 : 0 ≤ x) (hx2 : x < W)
    (hd1 : -1 ≤ d) (hd2 : d ≤ 1) :
    (x + d = -1 ∧ (x + d + W) % W = W - 1) ∨ (x + d = W ∧ (x + d + W) % W = 0) ∨
      (0 ≤ x + d ∧ x + d < W ∧ (x + d + W) % W = x + d) := by
  by_cases hneg : x + d < 0
  · left
    have e : x + d = -1 := by omega
    refine ⟨e, ?_⟩
    rw [e, Int.emod_eq_of_lt (by omega) (by omega)]; omega
  · by_cases hlt : x + d < W
    · right; right
      refine ⟨by omega, hlt, ?_⟩
      rw [Int.add_emod_self, Int.emod_eq_of_lt (by omega) hlt]
    · right; left
      have e : x + d = W := by omega
      refine ⟨e, ?_⟩
      rw [e]; simp

/-- In one direction the modulo wrap and `wrapM` give the same index, or two
indices that both lie off the live cells. -/
theorem wrap_mode (W hi : Nat) (lo : Int) (h1 : 1 ≤ lo) (h2 : hi + 1 ≤ W) (x d : Int)
    (hx1 : 0 ≤ x) (hx2 : x < W) (hd1 : -1 ≤ d) (hd2 : d ≤ 1) :
    (x + d + W) % W = wrapM (modeOf hi W) (x + d) ∨
      (¬ (lo ≤ (x + d + W) % W ∧ (x + d + W) % W ≤ hi) ∧
        ¬ (lo ≤ wrapM (modeOf hi W) (x + d) ∧ wrapM (modeOf hi W) (x + d) ≤ hi)) := by
  by_cases hm : W = hi + 1
  · left
    have : modeOf hi W = W := by simp [modeOf, hm]
    rw [this]
    unfold wrapM
    rw [if_neg (by omega), Int.add_emod_self]
  · have hmode : modeOf hi W = 0 := by simp [modeOf, hm]
    rw [hmode]
    have hw : wrapM 0 (x + d) = x + d := by simp [wrapM]
    rw [hw]
    rcases wrap_cases W x d hx1 hx2 hd1 hd2 with ⟨e, h⟩ | ⟨e, h⟩ | ⟨-, -, h⟩
    · right; rw [h, e]; omega
    · right; rw [h, e]; omega
    · left; exact h

theorem liveIn_wrap_eq (W H hi : Nat) (lo : Int) (L : List (Int × Int))
    (h1 : 1 ≤ lo) (h2 : hi + 1 ≤ W) (h3 : hi + 1 ≤ H)
    (hL : L.all (inBox lo hi) = true) (x y d e : Int)
    (hx1 : 0 ≤ x) (hx2 : x < W) (hy1 : 0 ≤ y) (hy2 : y < H)
    (hd1 : -1 ≤ d) (hd2 : d ≤ 1) (he1 : -1 ≤ e) (he2 : e ≤ 1) :
    liveIn L ((x + d + W) % W) ((y + e + H) % H) =
      liveIn L (wrapM (modeOf hi W) (x + d)) (wrapM (modeOf hi H) (y + e)) := by
  rcases wrap_mode W hi lo h1 h2 x d hx1 hx2 hd1 hd2 with hx | ⟨hxa, hxb⟩
  · rcases wrap_mode H hi lo h1 h3 y e hy1 hy2 he1 he2 with hy | ⟨hya, hyb⟩
    · rw [hx, hy]
    · rw [liveIn_outside_box L lo hi hL _ _ (fun hc => hya ⟨hc.2.2.1, hc.2.2.2⟩),
        liveIn_outside_box L lo hi hL _ _ (fun hc => hyb ⟨hc.2.2.1, hc.2.2.2⟩)]
  · rw [liveIn_outside_box L lo hi hL _ _ (fun hc => hxa ⟨hc.1, hc.2.1⟩),
      liveIn_outside_box L lo hi hL _ _ (fun hc => hxb ⟨hc.1, hc.2.1⟩)]

theorem countFn_eq_countM (W H hi : Nat) (lo : Int) (L : List (Int × Int))
    (h1 : 1 ≤ lo) (h2 : hi + 1 ≤ W) (h3 : hi + 1 ≤ H)
    (hL : L.all (inBox lo hi) = true) (x y : Int)
    (hx1 : 0 ≤ x) (hx2 : x < W) (hy1 : 0 ≤ y) (hy2 : y < H) :
    countFn W H (liveIn L) x y = countM (modeOf hi W) (modeOf hi H) (liveIn L) x y := by
  have key := liveIn_wrap_eq W H hi lo L h1 h2 h3 hL x y
  simp only [countFn, countM, List.map, List.sum_cons, List.sum_nil]
  rw [key (-1) (-1) hx1 hx2 hy1 hy2 (by omega) (by omega) (by omega) (by omega),
    key 0 (-1) hx1 hx2 hy1 hy2 (by omega) (by omega) (by omega) (by omega),
    key 1 (-1) hx1 hx2 hy1 hy2 (by omega) (by omega) (by omega) (by omega),
    key (-1) 0 hx1 hx2 hy1 hy2 (by omega) (by omega) (by omega) (by omega),
    key 1 0 hx1 hx2 hy1 hy2 (by omega) (by omega) (by omega) (by omega),
    key (-1) 1 hx1 hx2 hy1 hy2 (by omega) (by omega) (by omega) (by omega),
    key 0 1 hx1 hx2 hy1 hy2 (by omega) (by omega) (by omega) (by omega),
    key 1 1 hx1 hx2 hy1 hy2 (by omega) (by omega) (by omega) (by omega)]

/-- A cell whose column is, on a grid with a spare column behind the live
cells, more than one column away from them has no live neighbour. -/
theorem countFn_far_column (W H hi : Nat) (lo : Int) (L : List (Int × Int))
    (h1 : 1 ≤ lo) (h2 : (hi : Int) + 1 < W)
    (hL : L.all (inBox lo hi) = true) (x y : Int) (hx1 : 0 ≤ x) (hx2 : x < W)
    (hfar : x < lo - 1 ∨ (hi : Int) + 1 < x) :
    countFn W H (liveIn L) x y = 0 ∧ liveIn L x y = false := by
  have key : ∀ d b : Int, -1 ≤ d → d ≤ 1 → liveIn L ((x + d + W) % W) b = false := by
    intro d b hd1 hd2
    apply liveIn_outside_box L lo hi hL
    have := wrap_far W lo hi h1 h2 x d hx1 hx2 hd1 hd2 hfar
    intro hc; exact this ⟨hc.1, hc.2.1⟩
  refine ⟨?_, liveIn_outside_box L lo hi hL x y (by omega)⟩
  simp only [countFn, List.map, List.sum_cons, List.sum_nil]
  rw [key (-1) _ (by omega) (by omega), key 0 _ (by omega) (by omega),
    key 1 _ (by omega) (by omega), key (-1) _ (by omega) (by omega),
    key 1 _ (by omega) (by omega), key (-1) _ (by omega) (by omega),
    key 0 _ (by omega) (by omega), key 1 _ (by omega) (by omega)]
  rfl

/-- The same for a cell whose row is far from the live cells. -/
theorem countFn_far_row (W H hi : Nat) (lo : Int) (L : List (Int × Int))
    (h1 : 1 ≤ lo) (h3 : (hi : Int) + 1 < H)
    (hL : L.all (inBox lo hi) = true) (x y : Int) (hy1 : 0 ≤ y) (hy2 : y < H)
    (hfar : y < lo - 1 ∨ (hi : Int) + 1 < y) :
    countFn W H (liveIn L) x y = 0 ∧ liveIn L x y = false := by
  have key : ∀ a e : Int, -1 ≤ e → e ≤ 1 → liveIn L a ((y + e + H) % H) = false := by
    intro a e he1 he2
    apply liveIn_outside_box L lo hi hL
    have := wrap_far H lo hi h1 h3 y e hy1 hy2 he1 he2 hfar
    intro hc; exact this ⟨hc.2.2.1, hc.2.2.2⟩
  refine ⟨?_, liveIn_outside_box L lo hi hL x y (by omega)⟩
  simp only [countFn, List.map, List.sum_cons, List.sum_nil]
  rw [key _ (-1) (by omega) (by omega), key _ (-1) (by omega) (by omega),
    key _ (-1) (by omega) (by omega), key _ 0 (by omega) (by omega),
    key _ 0 (by omega) (by omega), key _ 1 (by omega) (by omega),
    key _ 1 (by omega) (by omega), key _ 1 (by omega) (by omega)]
  rfl

/-- A line of the grid is either far from the live cells, in a direction that
does not wrap onto them, or one of the lines to compute. -/
theorem mode_index (W hi k : Nat) (lo : Int) (x : Int) (h2 : hi + 1 ≤ W)
    (hk : (hi : Int) + 1 < lo - 1 + k) (hx1 : 0 ≤ x) (hx2 : x < W) :
    (modeOf hi W = 0 ∧ (hi : Int) + 1 < W ∧ (x < lo - 1 ∨ (hi : Int) + 1 < x)) ∨
      ∃ i : Nat, i < spanOf k (modeOf hi W) ∧ firstOf lo (modeOf hi W) + (i : Int) = x := by
  by_cases hm : W = hi + 1
  · right
    have hmode : modeOf hi W = W := by simp [modeOf, hm]
    refine ⟨x.toNat, ?_, ?_⟩
    · rw [hmode]; unfold spanOf; rw [if_neg (by omega)]; omega
    · rw [hmode]; unfold firstOf; rw [if_neg (by omega)]; omega
  · have hmode : modeOf hi W = 0 := by simp [modeOf, hm]
    by_cases hfar : x < lo - 1 ∨ (hi : Int) + 1 < x
    · left; exact ⟨hmode, by omega, hfar⟩
    · right
      refine ⟨(x - (lo - 1)).toNat, ?_, ?_⟩
      · rw [hmode]; unfold spanOf; rw [if_pos rfl]; omega
      · rw [hmode]; unfold firstOf; rw [if_pos rfl]; omega

theorem modeOf_mem (hi n : Nat) : modeOf hi n ∈ [0, hi + 1] := by
  unfold modeOf
  split
  · next h => simp [h]
  · simp

/-- One generation step on a grid, of any size they fit on, whose live cells
all lie in a square away from the first row and column: it is enough to
compute the cells round the square, once for a direction with a spare line
behind the square and once for a direction that ends with the square. -/
theorem generation_gridOf_torus (rule : Rule) (W H hi k : Nat) (lo : Int)
    (L L' : List (Int × Int)) (h1 : 1 ≤ lo) (h2 : hi + 1 ≤ W) (h3 : hi + 1 ≤ H)
    (hk : (hi : Int) + 1 < lo - 1 + k) (hdead : rule false 0 = false)
    (hL : L.all (inBox lo hi) = true) (hL' : L'.all (inBox (lo - 1) ((hi : Int) + 1)) = true)
    (hbox : ∀ mx ∈ [0, hi + 1], ∀ my ∈ [0, hi + 1],
      ∀ i < spanOf k mx, ∀ j < spanOf k my,
        rule (liveIn L (firstOf lo mx + (i : Nat)) (firstOf lo my + (j : Nat)))
            (countM mx my (liveIn L) (firstOf lo mx + (i : Nat)) (firstOf lo my + (j : Nat))) =
          liveIn L' (firstOf lo mx + (i : Nat)) (firstOf lo my + (j : Nat))) :
    generation rule W H (gridOf W H (liveIn L)) =
      some ⟨gridOf W H (liveIn L), gridOf W H (liveIn L')⟩ := by
  apply generation_gridOf_of
  intro x hx y hy
  unfold nextFn
  rcases mode_index W hi k lo x h2 hk (by omega) (by omega) with
    ⟨-, hWs, hfar⟩ | ⟨i, hi', hxe⟩
  · obtain ⟨hc, hl⟩ := countFn_far_column W H hi lo L h1 hWs hL x y (by omega) (by omega) hfar
    rw [hc, hl, hdead, liveIn_outside_box L' (lo - 1) ((hi : Int) + 1) hL' x y (by omega)]
  · rcases mode_index H hi k lo y h3 hk (by omega) (by omega) with
      ⟨-, hHs, hfar⟩ | ⟨j, hj', hye⟩
    · obtain ⟨hc, hl⟩ := countFn_far_row W H hi lo L h1 hHs hL x y (by omega) (by omega) hfar
      rw [hc, hl, hdead, liveIn_outside_box L' (lo - 1) ((hi : Int) + 1) hL' x y (by omega)]
    · rw [countFn_eq_countM W H hi lo L h1 h2 h3 hL x y (by omega) (by omega) (by omega)
        (by omega)]
      have := hbox _ (modeOf_mem hi W) _ (modeOf_mem hi H) i hi' j hj'
      rw [hxe, hye] at this
      exact this

theorem glider_step_1 (W H : Nat) (hW : 15 ≤ W) (hH : 15 ≤ H) :
    generation conway W H (gridOf W H (liveIn glider0)) =
      some ⟨gridOf W H (liveIn glider0), gridOf W H (liveIn glider1)⟩ :=
  generation_gridOf_torus conway W H 14 6 11 glider0 glider1 (by decide) (by omega) (by omega)
    (by decide) (by decide) (by decide) (by decide) (by decide!)

theorem glider_step_2 (W H : Nat) (hW : 15 ≤ W) (hH : 15 ≤ H) :
    generation conway W H (gridOf W H (liveIn glider1)) =
      some ⟨gridOf W H (liveIn glider1), gridOf W H (liveIn glider2)⟩ :=
  generation_gridOf_torus conway W H 14 6 11 glider1 glider2 (by decide) (by omega) (by omega)
    (by decide) (by decide) (by decide) (by decide) (by decide!)

theorem glider_step_3 (W H : Nat) (hW : 15 ≤ W) (hH : 15 ≤ H) :
    generation conway W H (gridOf W H (liveIn glider2)) =
      some ⟨gridOf W H (liveIn glider2), gridOf W H (liveIn glider3)⟩ :=
  generation_gridOf_torus conway W H 14 6 11 glider2 glider3 (by decide) (by omega) (by omega)
    (by decide) (by decide) (by decide) (by decide) (by decide!)

theorem glider_step_4 (W H : Nat) (hW : 15 ≤ W) (hH : 15 ≤ H) :
    generation conway W H (gridOf W H (liveIn glider3)) =
      some ⟨gridOf W H (liveIn glider3), gridOf W H (liveIn glider4)⟩ :=
  generation_gridOf_torus conway W H 14 6 11 glider3 glider4 (by decide) (by omega) (by omega)
    (by decide) (by decide) (by decide) (by decide) (by decide!)

/-- Four generations after the stamp, on every grid the stamp fits on. -/
theorem glider_four_steps (W H : Nat) (hW : 15 ≤ W) (hH : 15 ≤ H) :
    generations conway W H 4 (gridOf W H (liveIn glider0)) =
      some (gridOf W H (liveIn glider4)) :=
  (generations_succ conway W H 3 _ _ _ (glider_step_1 W H hW hH)).trans
    ((generations_succ conway W H 2 _ _ _ (glider_step_2 W H hW hH)).trans
      ((generations_succ conway W H 1 _ _ _ (glider_step_3 W H hW hH)).trans
        (generations_succ conway W H 0 _ _ _ (glider_step_4 W H hW hH))))

theorem liveIn_eq_decide_mem (L : List (Int × Int)) (a b : Int) :
    liveIn L a b = decide ((a, b) ∈ L) := by
  induction L with
  | nil => simp [liveIn]
  | cons p ps ih =>
    have e : liveIn (p :: ps) a b = ((p.1 == a && p.2 == b) || liveIn ps a b) := by
      simp [liveIn]
    rw [e, ih, Bool.eq_iff_iff]
    simp only [Bool.or_eq_true, Bool.and_eq_true, beq_iff_eq, decide_eq_true_eq, List.mem_cons]
    constructor
    · rintro (⟨h1, h2⟩ | h)
      · exact Or.inl (Prod.ext h1.symm h2.symm)
      · exact Or.inr h
    · rintro (h | h)
      · exact Or.inl ⟨(congrArg Prod.fst h).symm, (congrArg Prod.snd h).symm⟩
      · exact Or.inr h

theorem glider_fits_iff (W H : Nat) :
    (gliderCells 10 10).all (inGrid W H) = true ↔ (15 ≤ W ∧ 15 ≤ H) := by
  simp only [gliderCells, inGrid, List.all_cons, List.all_nil, Bool.and_true,
    Bool.and_eq_true, decide_eq_true_eq]
  omega

/-- The stamp `AddGlider(10,10)` on the all-dead grid of any size it fits on. -/
theorem AddGlider_dead (W H : Nat) (hW : 15 ≤ W) (hH : 15 ≤ H) :
    AddGlider (List.replicate W (List.replicate H false)) 10 10 =
      .done (gridOf W H (liveIn glider0)) := by
  obtain ⟨g, hg, hr, hl⟩ := stampAll_done W H (gliderCells 10 10) _ (Rect_replicate W H false)
    ((glider_fits_iff W H).2 ⟨hW, hH⟩)
  have e : g = gridOf W H (liveIn glider0) := by
    apply grid_ext g _ W H hr (Rect_gridOf W H _)
    intro x y hx hy
    rw [hl, live_replicate, live_gridOf_natCast W H _ x y hx hy, liveIn_eq_decide_mem]
    have : gliderCells 10 10 = glider0 := by decide
    rw [this]
    simp
  rw [AddGlider_eq_stampAll, hg, e]

theorem glider4_shifted (W H : Nat) (hW : 15 ≤ W) (hH : 15 ≤ H) (a b : Int) :
    live (gridOf W H (liveIn glider4)) (a - 1) (b - 1) =
      live (gridOf W H (liveIn glider0)) a b := by
  rw [live_gridOf_eq, live_gridOf_eq, Bool.eq_iff_iff]
  simp only [liveIn, glider0, glider4, List.any_cons, List.any_nil, Bool.or_false,
    Bool.and_eq_true, Bool.or_eq_true, decide_eq_true_eq, beq_iff_eq]
  omega

theorem live_glider0 (W H : Nat) (hW : 15 ≤ W) (hH : 15 ≤ H) (a b : Int) :
    live (gridOf W H (liveIn glider0)) a b = liveIn glider0 a b := by
  rw [live_gridOf_eq, Bool.eq_iff_iff]
  simp only [liveIn, glider0, List.any_cons, List.any_nil, Bool.or_false,
    Bool.and_eq_true, Bool.or_eq_true, decide_eq_true_eq, beq_iff_eq]
  omega

/-- C6, as the code has it: `AddGlider(10,10)` fits on the all-dead grid exactly
when the grid is at least 15x15, and on every such grid, under `B3/S23`, the
stamp followed by four generation steps leaves exactly the 5 cells that were
live right after the stamp, moved by `(-1,-1)`: cell `(a-1, b-1)` is live
after the four steps iff `(a, b)` was live after the stamp. -/
theorem glider_moves_by_minus_one (W H : Nat) :
    ((gliderCells 10 10).all (inGrid W H) = true ↔ (15 ≤ W ∧ 15 ≤ H)) ∧
    (15 ≤ W → 15 ≤ H →
      ∃ stamped after : Grid,
        MakeCells W H = some (List.replicate W (List.replicate H false)) ∧
        initRule (ascii "B3/S23") = some conway ∧
        AddGlider (List.replicate W (List.replicate H false)) 10 10 = .done stamped ∧
        generations conway W H 4 stamped = some after ∧
        (∀ a b : Int, live stamped a b = liveIn glider0 a b) ∧
        ∀ a b : Int, live after (a - 1) (b - 1) = live stamped a b) :=
  ⟨glider_fits_iff W H, fun hW hH =>
    ⟨_, _, MakeCells_natCast W H, initRule_B3S23, AddGlider_dead W H hW hH,
      glider_four_steps W H hW hH, live_glider0 W H hW hH, glider4_shifted W H hW hH⟩⟩

/-- The amended C6 on the 40x40 grid of the claim and on the smallest grid,
15x15, where the glider touches the last column and row. -/
theorem glider_moves_by_minus_one_witness :
    (∃ stamped after : Grid,
      AddGlider dead40 10 10 = .done stamped ∧
      generations conway (40 : Nat) (40 : Nat) 4 stamped = some after ∧
      ∀ a b : Int, live after (a - 1) (b - 1) = live stamped a b) ∧
    (∃ stamped after : Grid,
      AddGlider (List.replicate 15 (List.replicate 15 false)) 10 10 = .done stamped ∧
      generations conway (15 : Nat) (15 : Nat) 4 stamped = some after ∧
      ∀ a b : Int, live after (a - 1) (b - 1) = live stamped a b) := by
  refine ⟨?_, ?_⟩
  · obtain ⟨s, a, -, -, h1, h2, -, h3⟩ :=
      (glider_moves_by_minus_one 40 40).2 (by decide) (by decide)
    exact ⟨s, a, h1, h2, h3⟩
  · obtain ⟨s, a, -, -, h1, h2, -, h3⟩ :=
      (glider_moves_by_minus_one 15 15).2 (by decide) (by decide)
    exact ⟨s, a, h1, h2, h3⟩

end Life
